import Mathlib

/-!
Verification of the PooperScooper decision/coordination layer.

Shallow embedding of the Python sources:
  * `src/hardware/audio_monitor.py`  (stall detection & retry escalation)
  * `src/safety/watchdog.py`         (safety system / emergency-stop latch)
  * `src/control/state_machines.py`  (navigation & manipulation FSMs)
  * `src/control/patrol_planner.py`  (lawnmower coverage planner)
  * `src/navigation/path_planner.py` (grid A* search)

Numeric values (Python floats) are embedded as `ℚ`; times are explicit
parameters; dictionaries are first-match association lists (one entry per
key, updated in place, matching Python `dict` semantics).
-/

set_option maxHeartbeats 1000000

/-! ## Stall detection & retry controller (`src/hardware/audio_monitor.py`) -/

/-- `StallRetryStrategy` enum from `audio_monitor.py`. -/
inductive StallRetryStrategy where
  | backUp
  | adjustAngle
  | reduceDepth
  | increaseForce
  | skip
deriving DecidableEq, Repr

/-- Mutable state of `AudioMonitor` relevant to stall detection and retry
escalation, plus the configuration thresholds read in `__init__`. -/
structure AudioMonitor where
  stall_threshold : ℚ
  frequency_drop_percent : ℚ
  baseline_frequencies : List (String × ℚ)
  measurement_history : List ℚ
  stall_detected : Bool
  current_motor : Option String
  retry_attempts : ℕ
deriving DecidableEq, Repr

/-- First-match association-list lookup (Python `dict` read /
`motor_name in self.baseline_frequencies` + index). -/
def alistLookup {α : Type} [DecidableEq α] {β : Type} :
    List (α × β) → α → Option β
  | [], _ => none
  | (k', v') :: rest, k => if k' = k then some v' else alistLookup rest k

/-- `deque(maxlen=10).append`: append on the right, dropping the oldest
element once the length exceeds 10. -/
def dequeAppend10 (h : List ℚ) (f : ℚ) : List ℚ :=
  let h' := h ++ [f]
  if 10 < h'.length then h'.tail else h'

/-- `AudioMonitor.check_for_stall`.  The dominant-frequency measurement is an
explicit `Option ℚ` argument (the result of `_get_dominant_frequency`, `none`
when frequency analysis failed).  Returns the boolean result together with the
updated monitor state. -/
def check_for_stall (m : AudioMonitor) (motor_name : String) (freq : Option ℚ) :
    Bool × AudioMonitor :=
  let m := { m with current_motor := some motor_name }
  match freq with
  | none => (false, m)
  | some current_freq =>
    let m := { m with
      measurement_history := dequeAppend10 m.measurement_history current_freq }
    let baseline :=
      match alistLookup m.baseline_frequencies motor_name with
      | none => (400 : ℚ)
      | some b => b
    let stall_condition_1 : Bool := decide (current_freq < m.stall_threshold)
    let stall_condition_2 : Bool :=
      decide (current_freq < baseline * (1 - m.frequency_drop_percent / 100))
    let is_stalled := stall_condition_1 || stall_condition_2
    (is_stalled, { m with stall_detected := is_stalled })

/-- `AudioMonitor.reset_stall_flag`. -/
def reset_stall_flag (m : AudioMonitor) : AudioMonitor :=
  { m with stall_detected := false, current_motor := none, retry_attempts := 0 }

/-- `AudioMonitor.get_retry_strategy`: strategy selected from the current
value of `retry_attempts`. -/
def get_retry_strategy (m : AudioMonitor) : StallRetryStrategy :=
  if m.retry_attempts = 0 then .backUp
  else if m.retry_attempts = 1 then .adjustAngle
  else if m.retry_attempts = 2 then .reduceDepth
  else .skip

/-- `AudioMonitor.handle_stall`: increments `retry_attempts`, then selects the
strategy from the incremented counter.  Returns the strategy handed to the
caller together with the updated state. -/
def handle_stall (m : AudioMonitor) : StallRetryStrategy × AudioMonitor :=
  let m' := { m with retry_attempts := m.retry_attempts + 1 }
  (get_retry_strategy m', m')

/-- A concrete freshly initialised monitor (`retry_attempts = 0`). -/
def monitor0 : AudioMonitor :=
  { stall_threshold := 100
    frequency_drop_percent := 50
    baseline_frequencies := []
    measurement_history := []
    stall_detected := false
    current_motor := none
    retry_attempts := 0 }

/-! ## Safety watchdog (`src/safety/watchdog.py`) -/

/-- State of `SafetySystem`: configuration plus the mutable fields.  Wall-clock
time (`time.time()`) is passed explicitly to each operation. -/
structure SafetySystem where
  watchdog_timeout : ℚ
  max_operation_time : ℚ
  stall_retry_attempts : ℕ
  last_heartbeat : ℚ
  start_time : ℚ
  emergency_stop : Bool
  stall_count : ℕ
deriving DecidableEq, Repr

/-- `SafetySystem.heartbeat` at time `now`. -/
def heartbeat (now : ℚ) (s : SafetySystem) : SafetySystem :=
  { s with last_heartbeat := now }

/-- `SafetySystem.is_safe` evaluated at time `now` (the synchronous staleness
check: no background monitor involved). -/
def is_safe (now : ℚ) (s : SafetySystem) : Bool :=
  if s.emergency_stop then false
  else if s.watchdog_timeout < now - s.last_heartbeat then false
  else true

/-- `SafetySystem.trigger_emergency_stop` (the guard `if not
self.emergency_stop` only suppresses the log line; the resulting state always
has the flag set). -/
def trigger_emergency_stop (s : SafetySystem) : SafetySystem :=
  { s with emergency_stop := true }

/-- `SafetySystem.reset_emergency_stop` at time `now`: clears the latch and
also resets the heartbeat timestamp and the stall counter. -/
def reset_emergency_stop (now : ℚ) (s : SafetySystem) : SafetySystem :=
  { s with emergency_stop := false, last_heartbeat := now, stall_count := 0 }

/-- `SafetySystem.report_stall`: increments the stall counter and latches the
emergency stop once `stall_retry_attempts` is reached. -/
def report_stall (s : SafetySystem) : Bool × SafetySystem :=
  let s := { s with stall_count := s.stall_count + 1 }
  if s.stall_retry_attempts ≤ s.stall_count then
    (false, trigger_emergency_stop s)
  else
    (true, s)

/-- `SafetySystem.reset_stall_counter` (the `if stall_count > 0` guard only
suppresses the log line; the resulting state always has counter 0). -/
def reset_stall_counter (s : SafetySystem) : SafetySystem :=
  { s with stall_count := 0 }

/-- Every state-mutating `SafetySystem` operation other than the explicit
`reset_emergency_stop`. -/
inductive SafetyOp where
  | hb (now : ℚ)
  | trigger
  | reportStall
  | resetStallCounter
deriving DecidableEq

/-- Apply one non-reset operation. -/
def applySafetyOp (s : SafetySystem) : SafetyOp → SafetySystem
  | .hb now => heartbeat now s
  | .trigger => trigger_emergency_stop s
  | .reportStall => (report_stall s).2
  | .resetStallCounter => reset_stall_counter s

/-- Apply a sequence of non-reset operations. -/
def applySafetyOps (s : SafetySystem) (ops : List SafetyOp) : SafetySystem :=
  ops.foldl applySafetyOp s

/-- A concrete safety system with the emergency stop latched. -/
def safety0 : SafetySystem :=
  { watchdog_timeout := 5
    max_operation_time := 300
    stall_retry_attempts := 3
    last_heartbeat := 0
    start_time := 0
    emergency_stop := true
    stall_count := 1 }

/-! ## Navigation & manipulation state machines (`src/control/state_machines.py`)

The `transitions.Machine` is configured with `auto_transitions=False`; an
entry with source `'*'` is a wildcard matching every state.  Invoking a
trigger with no matching entry raises `MachineError` and leaves the state
unchanged; we model a trigger invocation as `(new state, error raised?)`. -/

/-- `NavigationState` enum. -/
inductive NavState where
  | idle
  | patrolling
  | searching
  | approachingTarget
  | positioning
  | returningToBase
  | arrived
deriving DecidableEq, Repr

/-- Triggers of `NavigationStateMachine`. -/
inductive NavTrigger where
  | start_patrol
  | start_search
  | target_found
  | patrol_complete
  | continue_patrol
  | return_home
  | arrived_at_target
  | lost_target
  | positioned
  | repositioning_needed
  | pickup_complete
  | pickup_failed
  | arrived_at_base
  | reset
deriving DecidableEq, Repr

/-- One entry of a transition table: trigger, source (`none` = wildcard
`'*'`), destination. -/
structure TableEntry (σ τ : Type) where
  trigger : τ
  source : Option σ
  dest : σ
deriving DecidableEq

/-- `NavigationStateMachine.transitions`, transcribed in order. -/
def nav_transitions : List (TableEntry NavState NavTrigger) :=
  [ ⟨.start_patrol, some .idle, .patrolling⟩
  , ⟨.start_search, some .idle, .searching⟩
  , ⟨.target_found, some .patrolling, .approachingTarget⟩
  , ⟨.patrol_complete, some .patrolling, .returningToBase⟩
  , ⟨.continue_patrol, some .patrolling, .patrolling⟩
  , ⟨.target_found, some .searching, .approachingTarget⟩
  , ⟨.return_home, some .searching, .returningToBase⟩
  , ⟨.arrived_at_target, some .approachingTarget, .positioning⟩
  , ⟨.lost_target, some .approachingTarget, .patrolling⟩
  , ⟨.positioned, some .positioning, .arrived⟩
  , ⟨.repositioning_needed, some .positioning, .approachingTarget⟩
  , ⟨.pickup_complete, some .arrived, .patrolling⟩
  , ⟨.pickup_failed, some .arrived, .patrolling⟩
  , ⟨.arrived_at_base, some .returningToBase, .idle⟩
  , ⟨.reset, none, .idle⟩ ]

/-- Does a table entry fire for the current state and requested trigger? -/
def entryMatches {σ τ : Type} [DecidableEq σ] [DecidableEq τ]
    (st : σ) (tr : τ) (e : TableEntry σ τ) : Bool :=
  decide (e.trigger = tr ∧ (e.source = none ∨ e.source = some st))

/-- Fire a trigger against a transition table: the first matching entry wins;
with no match the state is unchanged and an invalid-transition error is
raised (second component `true`). -/
def fireTrigger {σ τ : Type} [DecidableEq σ] [DecidableEq τ]
    (table : List (TableEntry σ τ)) (st : σ) (tr : τ) : σ × Bool :=
  match table.find? (entryMatches st tr) with
  | some e => (e.dest, false)
  | none => (st, true)

/-- One trigger invocation on `NavigationStateMachine`. -/
def navStep (st : NavState) (tr : NavTrigger) : NavState × Bool :=
  fireTrigger nav_transitions st tr

/-- `ManipulationState` enum. -/
inductive ManipState where
  | home
  | lowering
  | scooping
  | lifting
  | carrying
  | dumping
  | verifying
deriving DecidableEq, Repr

/-- Triggers of `ManipulationStateMachine`. -/
inductive ManipTrigger where
  | start_pickup
  | lowered
  | scooped
  | lifted
  | pickup_verified
  | pickup_failed_verify
  | arrived_at_dump
  | dumped
  | reset
  | abort
deriving DecidableEq, Repr

/-- `ManipulationStateMachine.transitions`, transcribed in order. -/
def manip_transitions : List (TableEntry ManipState ManipTrigger) :=
  [ ⟨.start_pickup, some .home, .lowering⟩
  , ⟨.lowered, some .lowering, .scooping⟩
  , ⟨.scooped, some .scooping, .lifting⟩
  , ⟨.lifted, some .lifting, .verifying⟩
  , ⟨.pickup_verified, some .verifying, .carrying⟩
  , ⟨.pickup_failed_verify, some .verifying, .lowering⟩
  , ⟨.arrived_at_dump, some .carrying, .dumping⟩
  , ⟨.dumped, some .dumping, .home⟩
  , ⟨.reset, none, .home⟩
  , ⟨.abort, none, .home⟩ ]

/-- One trigger invocation on `ManipulationStateMachine`. -/
def manipStep (st : ManipState) (tr : ManipTrigger) : ManipState × Bool :=
  fireTrigger manip_transitions st tr

/-- Run a sequence of triggers, tracking only the state (each invocation
either transitions or leaves the state in place). -/
def manipRun (st : ManipState) (trs : List ManipTrigger) : ManipState :=
  trs.foldl (fun s tr => (manipStep s tr).1) st

/-! ## Patrol coverage planner (`src/control/patrol_planner.py`) -/

/-- Python `int()` applied to a real number: truncation toward zero. -/
def pytrunc (q : ℚ) : ℤ := if q < 0 then ⌈q⌉ else ⌊q⌋

/-- The `config['patrol']` values read by `PatrolPlanner.__init__`. -/
structure PatrolConfig where
  area_x : ℚ
  area_y : ℚ
  area_width : ℚ
  area_height : ℚ
  cell_size : ℚ
  overlap_percent : ℚ
deriving DecidableEq

/-- `self.grid_cols = int(np.ceil(area_width / cell_size))`. -/
def grid_cols (c : PatrolConfig) : ℤ := ⌈c.area_width / c.cell_size⌉

/-- `self.grid_rows = int(np.ceil(area_height / cell_size))`. -/
def grid_rows (c : PatrolConfig) : ℤ := ⌈c.area_height / c.cell_size⌉

/-- `grid_cols` as the iteration count of `range(self.grid_cols)` (a
non-positive bound yields an empty range). -/
def gridColsN (c : PatrolConfig) : ℕ := (grid_cols c).toNat

/-- `grid_rows` as the iteration count of `range(self.grid_rows)`. -/
def gridRowsN (c : PatrolConfig) : ℕ := (grid_rows c).toNat

/-- `effective_size = cell_size * (1 - overlap_percent / 100)` from
`_generate_lawnmower`. -/
def effective_size (c : PatrolConfig) : ℚ :=
  c.cell_size * (1 - c.overlap_percent / 100)

/-- The waypoints appended for one `row` of the lawnmower sweep: even rows
iterate `col` over `range(grid_cols)`, odd rows over
`range(grid_cols - 1, -1, -1)` (the reverse). -/
def lawnmowerRow (c : PatrolConfig) (row : ℕ) : List (ℚ × ℚ) :=
  let es := effective_size c
  let y := c.area_y + ((row : ℚ) + 1 / 2) * es
  if row % 2 = 0 then
    (List.range (gridColsN c)).map
      (fun (col : ℕ) => (c.area_x + ((col : ℚ) + 1 / 2) * es, y))
  else
    (List.range (gridColsN c)).reverse.map
      (fun (col : ℕ) => (c.area_x + ((col : ℚ) + 1 / 2) * es, y))

/-- `PatrolPlanner._generate_lawnmower`: waypoints accumulated row by row. -/
def generate_lawnmower (c : PatrolConfig) : List (ℚ × ℚ) :=
  (List.range (gridRowsN c)).foldl (fun acc row => acc ++ lawnmowerRow c row) []

/-- State of `PatrolPlanner` relevant to coverage tracking: the construction
parameters and the coverage grid (cell statuses; `VISITED = 1`).  The grid is
a total function on indices; only indices below `grid_rows`/`grid_cols` are
ever read, mirroring the `np.zeros((grid_rows, grid_cols))` array. -/
structure PatrolPlanner where
  area_x : ℚ
  area_y : ℚ
  cell_size : ℚ
  grid_rows : ℕ
  grid_cols : ℕ
  coverage_grid : ℕ → ℕ → ℕ

/-- `col = int((x - area_x) / cell_size)` — Python `int()` truncates toward
zero. -/
def markCol (p : PatrolPlanner) (x : ℚ) : ℤ := pytrunc ((x - p.area_x) / p.cell_size)

/-- `row = int((y - area_y) / cell_size)`. -/
def markRow (p : PatrolPlanner) (y : ℚ) : ℤ := pytrunc ((y - p.area_y) / p.cell_size)

/-- The bounds check `0 <= row < grid_rows and 0 <= col < grid_cols` of
`mark_visited`. -/
def markInBounds (p : PatrolPlanner) (x y : ℚ) : Prop :=
  0 ≤ markRow p y ∧ markRow p y < (p.grid_rows : ℤ) ∧
  0 ≤ markCol p x ∧ markCol p x < (p.grid_cols : ℤ)

instance (p : PatrolPlanner) (x y : ℚ) : Decidable (markInBounds p x y) := by
  unfold markInBounds; infer_instance

/-- The in-bounds branch of `mark_visited`:
`self.coverage_grid[row, col] = CellStatus.VISITED.value` (= 1). -/
def markUpdate (p : PatrolPlanner) (x y : ℚ) : PatrolPlanner :=
  { p with coverage_grid := fun r c =>
      if r = (markRow p y).toNat ∧ c = (markCol p x).toNat then 1
      else p.coverage_grid r c }

/-- `PatrolPlanner.mark_visited`: world coordinates to a grid cell via
Python `int()` (truncation toward zero), bounds-checked; out of bounds is a
silent no-op. -/
def mark_visited (p : PatrolPlanner) (x y : ℚ) : PatrolPlanner :=
  if markInBounds p x y then markUpdate p x y else p

/-- `np.sum(self.coverage_grid == CellStatus.VISITED.value)`. -/
def visitedCells (p : PatrolPlanner) : ℕ :=
  ∑ r ∈ Finset.range p.grid_rows, ∑ c ∈ Finset.range p.grid_cols,
    if p.coverage_grid r c = 1 then 1 else 0

/-- `PatrolPlanner.get_coverage_percentage` (with
`total_cells = grid_rows * grid_cols` fixed at construction). -/
def get_coverage_percentage (p : PatrolPlanner) : ℚ :=
  ((visitedCells p : ℚ) / ((p.grid_rows * p.grid_cols : ℕ) : ℚ)) * 100

/-- Mark a whole list of positions visited, in order. -/
def markAll (p : PatrolPlanner) (pts : List (ℚ × ℚ)) : PatrolPlanner :=
  pts.foldl (fun q pt => mark_visited q pt.1 pt.2) p

/-- A concrete 2×2 planner with an untouched grid. -/
def planner0 : PatrolPlanner :=
  { area_x := 0
    area_y := 0
    cell_size := 1
    grid_rows := 2
    grid_cols := 2
    coverage_grid := fun _ _ => 0 }

/-! ## A* path planner (`src/navigation/path_planner.py`, `PathPlanner._astar`)

Grid cells are `(row, col)` pairs of Python ints (`ℤ`); the grid dimensions
`grid_rows`/`grid_cols` come from the `MapManager`.  The `heapq` priority
queue holds `(f_score, counter, cell)` tuples and pops the lexicographically
least one; counters are pairwise distinct so the cell is never compared.  The
queue is embedded as a plain list with an explicit minimum extraction.  The
`f_score` dict of the source is written but never read, so it is omitted. -/

/-- A grid cell `(row, col)`. -/
abbrev Cell := ℤ × ℤ

/-- A heap entry `(f_score, counter, cell)`. -/
abbrev HeapEntry := ℕ × ℕ × Cell

/-- First-match association-list update in place (Python `dict` write). -/
def alistInsert {α : Type} [DecidableEq α] {β : Type} :
    List (α × β) → α → β → List (α × β)
  | [], k, v => [(k, v)]
  | (k', v') :: rest, k, v =>
    if k' = k then (k, v) :: rest else (k', v') :: alistInsert rest k v

/-- Manhattan-distance heuristic `abs(a[0]-b[0]) + abs(a[1]-b[1])`. -/
def heuristic (a b : Cell) : ℕ := (a.1 - b.1).natAbs + (a.2 - b.2).natAbs

/-- `0 <= row < grid_rows and 0 <= col < grid_cols`. -/
def inGrid (rows cols : ℕ) (c : Cell) : Prop :=
  0 ≤ c.1 ∧ c.1 < (rows : ℤ) ∧ 0 ≤ c.2 ∧ c.2 < (cols : ℤ)

instance (rows cols : ℕ) (c : Cell) : Decidable (inGrid rows cols c) := by
  unfold inGrid; infer_instance

/-- `get_neighbors`: the in-bounds 4-connected neighbours, in source order
`(-1,0), (1,0), (0,-1), (0,1)`.  Note that no occupancy or obstacle data is
consulted — only the grid bounds. -/
def get_neighbors (rows cols : ℕ) (cell : Cell) : List Cell :=
  ([((-1 : ℤ), (0 : ℤ)), (1, 0), (0, -1), (0, 1)].map
      (fun d => (cell.1 + d.1, cell.2 + d.2))).filter
    (fun n => decide (inGrid rows cols n))

/-- Strict lexicographic order on `(f_score, counter)` — the order `heapq`
pops tuples in (counters are distinct, so ties cannot occur). -/
def entryLt (a b : HeapEntry) : Bool :=
  decide (a.1 < b.1) || (decide (a.1 = b.1) && decide (a.2.1 < b.2.1))

/-- Extract a least element of the queue (`heapq.heappop`) together with the
remaining entries. -/
def popMin : List HeapEntry → Option (HeapEntry × List HeapEntry)
  | [] => none
  | e :: es =>
    match popMin es with
    | none => some (e, [])
    | some (m, rest) => if entryLt m e then some (m, e :: rest) else some (e, es)

/-- The mutable search state of `_astar`: the open set, the push counter, and
the `came_from` / `g_score` dicts. -/
structure SearchState where
  openSet : List HeapEntry
  counter : ℕ
  cameFrom : List (Cell × Cell)
  gScore : List (Cell × ℕ)

/-- The body of a successful relaxation: update `came_from` and `g_score`,
bump the counter, and `heappush` the neighbour with
`f = tentative_g + heuristic(neighbor, goal)`. -/
def pushNeighbor (goal current : Cell) (s : SearchState) (neighbor : Cell)
    (tentative : ℕ) : SearchState :=
  { openSet := (tentative + heuristic neighbor goal, s.counter + 1, neighbor) ::
      s.openSet
    counter := s.counter + 1
    cameFrom := alistInsert s.cameFrom neighbor current
    gScore := alistInsert s.gScore neighbor tentative }

/-- Processing of one neighbour inside the `for neighbor in
get_neighbors(current)` loop.  `tentative_g = g_score[current] + 1`: `current`
was popped from the queue, so its key is always present in `g_score`; the
`getD 0` default is never exercised. -/
def relaxNeighbor (goal current : Cell) (s : SearchState) (neighbor : Cell) :
    SearchState :=
  let tentative := (alistLookup s.gScore current).getD 0 + 1
  let improves : Bool :=
    match alistLookup s.gScore neighbor with
    | none => true
    | some g => decide (tentative < g)
  if improves then pushNeighbor goal current s neighbor tentative else s

/-- Path reconstruction: `while current in came_from` walks the parent chain;
the chain is acyclic and visits distinct keys, so `came_from.length + 1` steps
of fuel always complete the walk. -/
def reconstructAux : ℕ → List (Cell × Cell) → Cell → List Cell
  | 0, _, _ => []
  | fuel + 1, cameFrom, current =>
    match alistLookup cameFrom current with
    | some prev => current :: reconstructAux fuel cameFrom prev
    | none => []

/-- Reconstructed path: the parent chain, then `path.append(start)` and
`path.reverse()`.  Always contains `start`, hence never empty. -/
def reconstructPath (cameFrom : List (Cell × Cell)) (start current : Cell) :
    List Cell :=
  (reconstructAux (cameFrom.length + 1) cameFrom current ++ [start]).reverse

/-- The `while open_set:` loop of `_astar`, with explicit fuel.  `none` means
the fuel ran out (which `astarFuel` below is proven never to allow);
`some []` is the `return []` after the queue empties; otherwise the
reconstructed path is returned when the goal is popped. -/
def astarLoop (rows cols : ℕ) (start goal : Cell) :
    ℕ → SearchState → Option (List Cell)
  | 0, _ => none
  | fuel + 1, s =>
    match popMin s.openSet with
    | none => some []
    | some (e, rest) =>
      let current := e.2.2
      if current = goal then some (reconstructPath s.cameFrom start current)
      else
        astarLoop rows cols start goal fuel
          ((get_neighbors rows cols current).foldl
            (relaxNeighbor goal current) { s with openSet := rest })

/-- The initial search state: `heappush(open_set, (0, 0, start))`,
`g_score = {start: 0}`. -/
def astarInit (start : Cell) : SearchState :=
  { openSet := [(0, 0, start)], counter := 0, cameFrom := [], gScore := [(start, 0)] }

/-- Fuel budget for the search loop; proven sufficient below (the loop
strictly decreases `searchMeasure`, which starts below this bound). -/
def astarFuel (rows cols : ℕ) : ℕ :=
  2 * (rows * cols + 1) * (rows * cols + 1) + 2

/-- `PathPlanner._astar` on a `rows × cols` grid. -/
def astar (rows cols : ℕ) (start goal : Cell) : List Cell :=
  (astarLoop rows cols start goal (astarFuel rows cols) (astarInit start)).getD []

/-- Cells currently on the open queue. -/
def openCells (s : SearchState) : List Cell := s.openSet.map (fun e => e.2.2)

/-- Keys of the `g_score` dict. -/
def gKeys (s : SearchState) : List Cell := s.gScore.map Prod.fst

/-- Sum of the `g_score` values. -/
def gValuesSum (s : SearchState) : ℕ := (s.gScore.map Prod.snd).sum

/-- Termination measure of the search loop (`n = rows * cols + 1` bounds the
number of distinct `g_score` keys). -/
def searchMeasure (n : ℕ) (s : SearchState) : ℕ :=
  2 * n * (n - s.gScore.length) + 2 * gValuesSum s + s.openSet.length

/-- Data invariant of the search loop: the `g_score` keys are pairwise
distinct, every stored value is below the number of keys, every key is the
start cell or an in-bounds cell, and the dict is non-empty. -/
def SearchInv (rows cols : ℕ) (start : Cell) (s : SearchState) : Prop :=
  (gKeys s).Nodup ∧
  (∀ e ∈ s.gScore, e.2 + 1 ≤ s.gScore.length) ∧
  (∀ e ∈ s.gScore, e.1 = start ∨ inGrid rows cols e.1) ∧
  1 ≤ s.gScore.length

/-- Frontier invariant: every discovered cell either has all its in-bounds
neighbours discovered, or still sits on the open queue. -/
def FrontierInv (rows cols : ℕ) (s : SearchState) : Prop :=
  ∀ c ∈ gKeys s,
    (∀ nb ∈ get_neighbors rows cols c, nb ∈ gKeys s) ∨ c ∈ openCells s

/-- Goal invariant: if the goal has been discovered it is still on the open
queue (it leaves the queue only by being popped, which ends the search). -/
def GoalInv (goal : Cell) (s : SearchState) : Prop :=
  goal ∈ gKeys s → goal ∈ openCells s

/-- A 4-connected in-bounds walk: each cell of `path` is an admissible
neighbour of its predecessor, starting from `c`. -/
def AdjChain (rows cols : ℕ) (c : Cell) (path : List Cell) : Prop :=
  List.Chain (fun a b => b ∈ get_neighbors rows cols a) c path

/-- `c` is connected to `goal` by a 4-connected in-bounds walk. -/
def ReachesGoal (rows cols : ℕ) (c goal : Cell) : Prop :=
  ∃ path : List Cell, AdjChain rows cols c path ∧ (c :: path).getLast? = some goal

/-- All cells a `g_score` key can ever be: the start cell plus the in-bounds
grid cells. -/
def cellsFinset (rows cols : ℕ) (start : Cell) : Finset Cell :=
  insert start ((Finset.range rows ×ˢ Finset.range cols).image
    (fun p => ((p.1 : ℤ), (p.2 : ℤ))))

/-! ## Theorems -/

/-! ### C1 — stall-retry escalation -/

/-- **C1 counterexample.**  The claim states the first detected stall (from a
freshly reset counter) yields `BackUp`.  In the code, `handle_stall`
increments `retry_attempts` *before* selecting the strategy, so the very
first stall after `reset_stall_flag` yields `AdjustAngle`, not `BackUp`. -/
theorem stall_retry_first_is_not_backup :
    (handle_stall (reset_stall_flag monitor0)).1 = StallRetryStrategy.adjustAngle ∧
    StallRetryStrategy.adjustAngle ≠ StallRetryStrategy.backUp := by
  decide

/-- **C1 (amended).**  Starting from a freshly reset retry counter, the
strategies handed to the caller on successive detected stalls are
`AdjustAngle` on the first stall, `ReduceDepth` on the second, and `Skip` on
the third and every later stall (`BackUp` is selected by `get_retry_strategy`
only at counter 0, which `handle_stall` never consults since it increments
first); the counter increments exactly once per detected stall, is never 0
after a stall, is left untouched by `check_for_stall`, and returns to 0 via
the explicit `reset_stall_flag`. -/
theorem stall_retry_escalation (m : AudioMonitor) (h : m.retry_attempts = 0) :
    (handle_stall m).1 = StallRetryStrategy.adjustAngle ∧
    (handle_stall (handle_stall m).2).1 = StallRetryStrategy.reduceDepth ∧
    (handle_stall (handle_stall (handle_stall m).2).2).1 = StallRetryStrategy.skip ∧
    (handle_stall (handle_stall (handle_stall (handle_stall m).2).2).2).1 =
      StallRetryStrategy.skip ∧
    (∀ m' : AudioMonitor,
      (handle_stall m').2.retry_attempts = m'.retry_attempts + 1) ∧
    (∀ m' : AudioMonitor, (handle_stall m').2.retry_attempts ≠ 0) ∧
    (∀ m' : AudioMonitor, (reset_stall_flag m').retry_attempts = 0) ∧
    (∀ (m' : AudioMonitor) (mo : String) (f : Option ℚ),
      (check_for_stall m' mo f).2.retry_attempts = m'.retry_attempts) := by
  refine ⟨?_, ?_, ?_, ?_, fun m' => rfl, fun m' => by simp [handle_stall],
    fun m' => rfl, fun m' mo f => ?_⟩
  · simp [handle_stall, get_retry_strategy, h]
  · simp [handle_stall, get_retry_strategy, h]
  · simp [handle_stall, get_retry_strategy, h]
  · simp [handle_stall, get_retry_strategy, h]
  · cases f <;> simp [check_for_stall]

/-- Witness for `stall_retry_escalation` at the concrete monitor
`monitor0`. -/
theorem stall_retry_escalation_witness :
    (handle_stall monitor0).1 = StallRetryStrategy.adjustAngle :=
  (stall_retry_escalation monitor0 rfl).1

/-! ### C9 — missing frequency reading means "no stall" -/

/-- **C9.**  Whenever the dominant-frequency measurement is unavailable
(`_get_dominant_frequency` returned `None`), `check_for_stall` returns
`False`, for every motor name and every monitor state (any calibration
state, any measurement history). -/
theorem missing_frequency_no_stall (m : AudioMonitor) (motor_name : String) :
    (check_for_stall m motor_name none).1 = false := rfl

/-! ### C2 — watchdog latching -/

/-- **C2.**  Once `emergency_stop` is true it stays true under any sequence
of heartbeats (and of every other non-reset operation); only the explicit
`reset_emergency_stop` clears it, also resetting the heartbeat timestamp and
the stall counter; and `is_safe` returns false whenever `emergency_stop` is
true or the time since the last heartbeat exceeds `watchdog_timeout` —
synchronously, with no background monitor involved. -/
theorem watchdog_latching (s s' : SafetySystem) (ops : List SafetyOp) (now t : ℚ)
    (h : s.emergency_stop = true)
    (h' : s'.emergency_stop = true ∨ s'.watchdog_timeout < t - s'.last_heartbeat) :
    (applySafetyOps s ops).emergency_stop = true ∧
    (reset_emergency_stop now s).emergency_stop = false ∧
    (reset_emergency_stop now s).last_heartbeat = now ∧
    (reset_emergency_stop now s).stall_count = 0 ∧
    is_safe t s' = false := by
  refine ⟨?_, rfl, rfl, rfl, ?_⟩
  · induction ops generalizing s with
    | nil => exact h
    | cons op rest ih =>
      refine ih (applySafetyOp s op) ?_
      cases op with
      | hb now => exact h
      | trigger => rfl
      | reportStall =>
        simp only [applySafetyOp, report_stall]
        split
        · rfl
        · exact h
      | resetStallCounter => exact h
  · rcases h' with h' | h'
    · simp [is_safe, h']
    · simp [is_safe, h']

/-- Witness for `watchdog_latching` at the latched state `safety0`. -/
theorem watchdog_latching_witness :
    (applySafetyOps safety0 [SafetyOp.hb 1, SafetyOp.reportStall,
      SafetyOp.hb 2]).emergency_stop = true ∧
    is_safe 3 safety0 = false := by
  have h := watchdog_latching safety0 safety0
    [SafetyOp.hb 1, SafetyOp.reportStall, SafetyOp.hb 2] 0 3 rfl (Or.inl rfl)
  exact ⟨h.1, h.2.2.2.2⟩

/-! ### C3 — navigation state machine -/

/-- **C3.**  For every state, the `reset` trigger moves the navigation
machine to `Idle` (without error); and for every `(state, trigger)` pair with
no matching entry in the transition table, invoking the trigger raises an
invalid-transition error and leaves the state unchanged — no silent coercion
to another state. -/
theorem nav_reset_and_invalid (st : NavState) (tr : NavTrigger)
    (h : ∀ e ∈ nav_transitions, entryMatches st tr e = false) :
    navStep st NavTrigger.reset = (NavState.idle, false) ∧
    navStep st tr = (st, true) := by
  constructor
  · cases st <;> rfl
  · have hn : nav_transitions.find? (entryMatches st tr) = none :=
      List.find?_eq_none.mpr (fun e he => by simp [h e he])
    simp [navStep, fireTrigger, hn]

/-- Witness for `nav_reset_and_invalid`: `positioned` is not a transition out
of `Idle`. -/
theorem nav_reset_and_invalid_witness :
    navStep NavState.idle NavTrigger.reset = (NavState.idle, false) ∧
    navStep NavState.idle NavTrigger.positioned = (NavState.idle, true) :=
  nav_reset_and_invalid NavState.idle NavTrigger.positioned (by decide)

/-! ### C4 — manipulation state machine -/

/-- **C4.**  Starting in `Home`, the trigger sequence `start_pickup, lowered,
scooped, lifted, pickup_verified` ends with the manipulation machine in
`Carrying`; and from every state, the `abort` trigger moves the machine to
`Home`. -/
theorem manip_pickup_sequence :
    manipRun ManipState.home
      [ManipTrigger.start_pickup, ManipTrigger.lowered, ManipTrigger.scooped,
        ManipTrigger.lifted, ManipTrigger.pickup_verified] =
      ManipState.carrying ∧
    ∀ st : ManipState, manipStep st ManipTrigger.abort = (ManipState.home, false) := by
  constructor
  · rfl
  · intro st; cases st <;> rfl

/-! ### C5 — lawnmower pattern -/

/-- Accumulating rows with `foldl (· ++ f ·)` is flattening the mapped rows. -/
theorem foldl_append_eq_flatten {α β : Type} (f : α → List β) (l : List α) :
    ∀ init : List β,
      l.foldl (fun acc a => acc ++ f a) init = init ++ (l.map f).flatten := by
  induction l with
  | nil => intro init; simp
  | cons a t ih => intro init; simp [ih (init ++ f a)]

/-- Each lawnmower row contributes exactly `grid_cols` waypoints. -/
theorem lawnmowerRow_length (c : PatrolConfig) (k : ℕ) :
    (lawnmowerRow c k).length = gridColsN c := by
  unfold lawnmowerRow
  split <;> simp

/-- `_generate_lawnmower` is the concatenation of its rows in order. -/
theorem generate_lawnmower_eq_flatten (c : PatrolConfig) :
    generate_lawnmower c =
      ((List.range (gridRowsN c)).map (lawnmowerRow c)).flatten := by
  unfold generate_lawnmower
  rw [foldl_append_eq_flatten]
  rfl

/-- Waypoint count of the lawnmower pattern. -/
theorem generate_lawnmower_length (c : PatrolConfig) :
    (generate_lawnmower c).length = gridRowsN c * gridColsN c := by
  rw [generate_lawnmower_eq_flatten]
  induction gridRowsN c with
  | zero => simp
  | succ n ih =>
    rw [List.range_succ, List.map_append, List.flatten_append]
    simp only [List.length_append, ih]
    simp [lawnmowerRow_length, Nat.succ_mul]

/-- Strictly increasing chain over a strictly increasing map of `range`. -/
theorem chain'_lt_map_range (g : ℕ → ℚ) (hg : ∀ m : ℕ, g m < g (m + 1)) (n : ℕ) :
    ((List.range n).map g).Chain' (· < ·) := by
  rw [List.chain'_map]
  cases n with
  | zero => simp
  | succ n =>
    apply (List.chain'_range_succ (fun a b => g a < g b) n).mpr
    intro m _
    exact hg m

/-- **C5.**  For a configured area of width `W`, height `H`, cell size
`c > 0` (with `W, H > 0` and overlap below 100 %), `_generate_lawnmower`
produces exactly `⌈W/c⌉ × ⌈H/c⌉` waypoints, laid out row by row, and the
waypoints of row `k` have strictly increasing x-coordinates when `k` is even
and strictly decreasing ones when `k` is odd. -/
theorem lawnmower_pattern (c : PatrolConfig)
    (hw : 0 < c.area_width) (hh : 0 < c.area_height) (hc : 0 < c.cell_size)
    (ho : c.overlap_percent < 100) :
    (generate_lawnmower c).length =
      (⌈c.area_height / c.cell_size⌉ * ⌈c.area_width / c.cell_size⌉).toNat ∧
    generate_lawnmower c =
      ((List.range (gridRowsN c)).map (lawnmowerRow c)).flatten ∧
    (∀ k : ℕ, k % 2 = 0 → ((lawnmowerRow c k).map Prod.fst).Chain' (· < ·)) ∧
    (∀ k : ℕ, k % 2 = 1 → ((lawnmowerRow c k).map Prod.fst).Chain' (· > ·)) := by
  have hes : 0 < effective_size c := by
    unfold effective_size
    have h1 : 0 < 1 - c.overlap_percent / 100 := by linarith
    positivity
  have hstep : ∀ m : ℕ,
      c.area_x + ((m : ℚ) + 1 / 2) * effective_size c <
      c.area_x + (((m + 1 : ℕ) : ℚ) + 1 / 2) * effective_size c := by
    intro m
    have h1 : ((m : ℚ) + 1 / 2) < (((m + 1 : ℕ) : ℚ) + 1 / 2) := by
      push_cast; linarith
    have h2 := mul_lt_mul_of_pos_right h1 hes
    linarith
  refine ⟨?_, generate_lawnmower_eq_flatten c, ?_, ?_⟩
  · rw [generate_lawnmower_length]
    have hr : 0 < grid_rows c := Int.ceil_pos.mpr (div_pos hh hc)
    have hcl : 0 < grid_cols c := Int.ceil_pos.mpr (div_pos hw hc)
    have hrows : (gridRowsN c : ℤ) = grid_rows c :=
      Int.toNat_of_nonneg (le_of_lt hr)
    have hcols : (gridColsN c : ℤ) = grid_cols c :=
      Int.toNat_of_nonneg (le_of_lt hcl)
    have hmul : ((gridRowsN c * gridColsN c : ℕ) : ℤ) =
        grid_rows c * grid_cols c := by
      push_cast [hrows, hcols]; ring
    unfold grid_rows grid_cols at hmul
    omega
  · intro k hk
    unfold lawnmowerRow
    rw [if_pos hk, List.map_map]
    exact chain'_lt_map_range _ (fun m => hstep m) _
  · intro k hk
    unfold lawnmowerRow
    rw [if_neg (by omega), List.map_map, List.map_reverse, List.chain'_reverse]
    exact chain'_lt_map_range _ (fun m => hstep m) _

/-- A concrete 5×3 m patrol area with 2 m cells and no overlap. -/
def cfg5 : PatrolConfig :=
  { area_x := 0, area_y := 0, area_width := 5, area_height := 3,
    cell_size := 2, overlap_percent := 0 }

/-- Witness for `lawnmower_pattern` at the concrete configuration `cfg5`. -/
theorem lawnmower_pattern_witness :
    (generate_lawnmower cfg5).length =
      (⌈cfg5.area_height / cfg5.cell_size⌉ * ⌈cfg5.area_width / cfg5.cell_size⌉).toNat :=
  (lawnmower_pattern cfg5 (by decide) (by decide) (by decide) (by decide)).1

/-! ### C6 / C8 — coverage tracking -/

/-- `mark_visited` only touches the coverage grid: the grid dimensions are
unchanged. -/
theorem mark_visited_grid_rows (p : PatrolPlanner) (x y : ℚ) :
    (mark_visited p x y).grid_rows = p.grid_rows := by
  unfold mark_visited; split <;> rfl

/-- `mark_visited` leaves `grid_cols` unchanged. -/
theorem mark_visited_grid_cols (p : PatrolPlanner) (x y : ℚ) :
    (mark_visited p x y).grid_cols = p.grid_cols := by
  unfold mark_visited; split <;> rfl

/-- The visited-cell count never exceeds the total cell count. -/
theorem visitedCells_le_total (p : PatrolPlanner) :
    visitedCells p ≤ p.grid_rows * p.grid_cols := by
  unfold visitedCells
  calc (∑ r ∈ Finset.range p.grid_rows, ∑ c ∈ Finset.range p.grid_cols,
          if p.coverage_grid r c = 1 then 1 else 0)
      ≤ ∑ _r ∈ Finset.range p.grid_rows, p.grid_cols := by
        refine Finset.sum_le_sum (fun r _ => ?_)
        calc (∑ c ∈ Finset.range p.grid_cols,
                if p.coverage_grid r c = 1 then 1 else 0)
            ≤ ∑ _c ∈ Finset.range p.grid_cols, 1 :=
              Finset.sum_le_sum (fun c _ => by split <;> omega)
          _ = p.grid_cols := by simp
    _ = p.grid_rows * p.grid_cols := by simp [mul_comm]

/-- The in-bounds grid update can only increase the visited-cell count. -/
theorem visitedCells_markUpdate (p : PatrolPlanner) (x y : ℚ) :
    visitedCells p ≤ visitedCells (markUpdate p x y) := by
  unfold visitedCells markUpdate
  refine Finset.sum_le_sum (fun r _ => Finset.sum_le_sum (fun c _ => ?_))
  by_cases hrc : r = (markRow p y).toNat ∧ c = (markCol p x).toNat
  · simp only [hrc, if_pos, and_self, if_true]
    split <;> omega
  · simp only [if_neg hrc]
    exact le_refl _

/-- Marking a cell can only increase the visited-cell count. -/
theorem visitedCells_mono (p : PatrolPlanner) (x y : ℚ) :
    visitedCells p ≤ visitedCells (mark_visited p x y) := by
  unfold mark_visited
  split
  · exact visitedCells_markUpdate p x y
  · exact le_refl _

/-- Coverage percentage after one `mark_visited` call is at least the
coverage percentage before it. -/
theorem coverage_mono_step (p : PatrolPlanner) (x y : ℚ)
    (ht : 0 < p.grid_rows * p.grid_cols) :
    get_coverage_percentage p ≤ get_coverage_percentage (mark_visited p x y) := by
  unfold get_coverage_percentage
  rw [mark_visited_grid_rows, mark_visited_grid_cols]
  have htq : (0 : ℚ) < ((p.grid_rows * p.grid_cols : ℕ) : ℚ) := by
    exact_mod_cast ht
  refine mul_le_mul_of_nonneg_right ?_ (by norm_num)
  refine (div_le_div_iff_of_pos_right htq).mpr ?_
  exact_mod_cast visitedCells_mono p x y

/-- Coverage percentage never exceeds 100. -/
theorem coverage_le_100 (p : PatrolPlanner) (ht : 0 < p.grid_rows * p.grid_cols) :
    get_coverage_percentage p ≤ 100 := by
  unfold get_coverage_percentage
  have htq : (0 : ℚ) < ((p.grid_rows * p.grid_cols : ℕ) : ℚ) := by
    exact_mod_cast ht
  have h1 : (visitedCells p : ℚ) / ((p.grid_rows * p.grid_cols : ℕ) : ℚ) ≤ 1 := by
    rw [div_le_one htq]
    exact_mod_cast visitedCells_le_total p
  calc (visitedCells p : ℚ) / ((p.grid_rows * p.grid_cols : ℕ) : ℚ) * 100
      ≤ 1 * 100 := mul_le_mul_of_nonneg_right h1 (by norm_num)
    _ = 100 := by norm_num

/-- `markAll` leaves the grid dimensions unchanged. -/
theorem markAll_dims (pts : List (ℚ × ℚ)) : ∀ p : PatrolPlanner,
    (markAll p pts).grid_rows = p.grid_rows ∧
    (markAll p pts).grid_cols = p.grid_cols := by
  induction pts with
  | nil => intro p; exact ⟨rfl, rfl⟩
  | cons pt rest ih =>
    intro p
    have h := ih (mark_visited p pt.1 pt.2)
    unfold markAll at *
    simp only [List.foldl_cons]
    rw [h.1, h.2, mark_visited_grid_rows, mark_visited_grid_cols]
    exact ⟨rfl, rfl⟩

/-- Coverage percentage is monotone along any sequence of `mark_visited`
calls. -/
theorem coverage_mono_markAll (pts : List (ℚ × ℚ)) : ∀ p : PatrolPlanner,
    0 < p.grid_rows * p.grid_cols →
    get_coverage_percentage p ≤ get_coverage_percentage (markAll p pts) := by
  induction pts with
  | nil => intro p _; exact le_refl _
  | cons pt rest ih =>
    intro p ht
    have ht' : 0 < (mark_visited p pt.1 pt.2).grid_rows *
        (mark_visited p pt.1 pt.2).grid_cols := by
      rw [mark_visited_grid_rows, mark_visited_grid_cols]; exact ht
    calc get_coverage_percentage p
        ≤ get_coverage_percentage (mark_visited p pt.1 pt.2) :=
          coverage_mono_step p pt.1 pt.2 ht
      _ ≤ get_coverage_percentage (markAll (mark_visited p pt.1 pt.2) rest) :=
          ih _ ht'
      _ = get_coverage_percentage (markAll p (pt :: rest)) := rfl

/-- **C6.**  Within one patrol session (any sequence of `mark_visited` calls,
no reset or map load in between, on a planner with a non-degenerate grid),
`get_coverage_percentage` is monotonically non-decreasing — each call leaves
it equal or larger — and its value never exceeds 100. -/
theorem coverage_monotone (p : PatrolPlanner) (pts : List (ℚ × ℚ)) (x y : ℚ)
    (hcs : 0 < p.cell_size) (ht : 0 < p.grid_rows * p.grid_cols) :
    get_coverage_percentage p ≤ get_coverage_percentage (mark_visited p x y) ∧
    get_coverage_percentage p ≤ get_coverage_percentage (markAll p pts) ∧
    get_coverage_percentage (markAll p pts) ≤ 100 := by
  refine ⟨coverage_mono_step p x y ht, coverage_mono_markAll pts p ht, ?_⟩
  have hd := markAll_dims pts p
  exact coverage_le_100 _ (by rw [hd.1, hd.2]; exact ht)

/-- Witness for `coverage_monotone` on the 2×2 planner `planner0`. -/
theorem coverage_monotone_witness :
    get_coverage_percentage
      (markAll planner0 [(1/2, 1/2), (1/2, 1/2), (3/2, 3/2)]) ≤ 100 :=
  (coverage_monotone planner0 [(1/2, 1/2), (1/2, 1/2), (3/2, 3/2)] 0 0
    (by norm_num [planner0]) (by norm_num [planner0])).2.2

/-- Applying the in-bounds grid update twice is the same as applying it
once. -/
theorem markUpdate_idem (p : PatrolPlanner) (x y : ℚ) :
    markUpdate (markUpdate p x y) x y = markUpdate p x y := by
  simp only [markUpdate, markRow, markCol]
  congr 1
  funext r c
  by_cases hrc : r = (pytrunc ((y - p.area_y) / p.cell_size)).toNat ∧
      c = (pytrunc ((x - p.area_x) / p.cell_size)).toNat
  · rw [if_pos hrc, if_pos hrc]
  · rw [if_neg hrc, if_neg hrc]

/-- **C8.**  `mark_visited` is idempotent: marking the same `(x, y)` twice
yields exactly the same planner state (hence the same coverage grid and the
same coverage percentage) as marking it once; and for coordinates mapping
outside the grid bounds, `mark_visited` is a silent no-op that leaves the
planner entirely unchanged. -/
theorem mark_visited_idempotent (p : PatrolPlanner) (x y xo yo : ℚ)
    (hcs : 0 < p.cell_size) (hob : ¬ markInBounds p xo yo) :
    mark_visited (mark_visited p x y) x y = mark_visited p x y ∧
    mark_visited p xo yo = p := by
  constructor
  · unfold mark_visited
    by_cases hin : markInBounds p x y
    · rw [if_pos hin]
      rw [if_pos (show markInBounds (markUpdate p x y) x y from hin)]
      exact markUpdate_idem p x y
    · rw [if_neg hin, if_neg hin]
  · unfold mark_visited
    rw [if_neg hob]

/-- Witness for `mark_visited_idempotent`: `(99, 99)` maps outside the 2×2
grid of `planner0` and marking it changes nothing. -/
theorem mark_visited_idempotent_witness :
    mark_visited planner0 99 99 = planner0 :=
  (mark_visited_idempotent planner0 0 0 99 99 (by norm_num [planner0])
    (by norm_num [markInBounds, markRow, markCol, pytrunc, planner0])).2

/-! ### A* infrastructure lemmas -/

/-- Looking up the freshly inserted key. -/
theorem alistLookup_insert_self {α : Type} [DecidableEq α] {β : Type}
    (l : List (α × β)) (k : α) (v : β) :
    alistLookup (alistInsert l k v) k = some v := by
  induction l with
  | nil => simp [alistInsert, alistLookup]
  | cons e rest ih =>
    by_cases hk : e.1 = k
    · simp [alistInsert, hk, alistLookup]
    · simp [alistInsert, hk, alistLookup, ih]

/-- Insertion does not disturb other keys. -/
theorem alistLookup_insert_ne {α : Type} [DecidableEq α] {β : Type}
    (l : List (α × β)) (k k' : α) (v : β) (h : k' ≠ k) :
    alistLookup (alistInsert l k v) k' = alistLookup l k' := by
  induction l with
  | nil =>
    simp only [alistInsert, alistLookup]
    rw [if_neg (fun h' => h h'.symm)]
  | cons e rest ih =>
    by_cases hk : e.1 = k
    · simp only [alistInsert, if_pos hk, alistLookup]
      rw [if_neg (fun h' => h h'.symm), if_neg (fun h' => h (h'.symm.trans hk))]
    · simp only [alistInsert, if_neg hk, alistLookup]
      by_cases hk' : e.1 = k'
      · rw [if_pos hk', if_pos hk']
      · rw [if_neg hk', if_neg hk', ih]

/-- A successful lookup exhibits a list entry. -/
theorem alistLookup_mem {α : Type} [DecidableEq α] {β : Type} :
    ∀ (l : List (α × β)) (k : α) (v : β),
      alistLookup l k = some v → (k, v) ∈ l := by
  intro l
  induction l with
  | nil => intro k v h; simp [alistLookup] at h
  | cons e rest ih =>
    intro k v h
    by_cases hk : e.1 = k
    · simp only [alistLookup, if_pos hk, Option.some.injEq] at h
      have he : e = (k, v) := by cases e; simp_all
      rw [← he]
      exact List.mem_cons_self e rest
    · simp only [alistLookup, if_neg hk] at h
      exact List.mem_cons_of_mem _ (ih k v h)

/-- A key with a `none` lookup is absent from the key list. -/
theorem alistLookup_eq_none_iff {α : Type} [DecidableEq α] {β : Type} :
    ∀ (l : List (α × β)) (k : α),
      alistLookup l k = none ↔ k ∉ l.map Prod.fst := by
  intro l
  induction l with
  | nil => intro k; simp [alistLookup]
  | cons e rest ih =>
    intro k
    by_cases hk : e.1 = k
    · simp [alistLookup, hk]
    · simp only [alistLookup, if_neg hk, List.map_cons, List.mem_cons]
      rw [ih k]
      constructor
      · intro h1 h2
        rcases h2 with h2 | h2
        · exact hk h2.symm
        · exact h1 h2
      · intro h1 h2
        exact h1 (Or.inr h2)

/-- Every entry after an insertion is the new pair or an old entry. -/
theorem alistInsert_entry_cases {α : Type} [DecidableEq α] {β : Type} :
    ∀ (l : List (α × β)) (k : α) (v : β) (e : α × β),
      e ∈ alistInsert l k v → e = (k, v) ∨ e ∈ l := by
  intro l
  induction l with
  | nil =>
    intro k v e h
    simp only [alistInsert] at h
    left
    simpa using h
  | cons e' rest ih =>
    intro k v e h
    by_cases hk : e'.1 = k
    · simp only [alistInsert, if_pos hk] at h
      rcases List.mem_cons.mp h with h | h
      · left; exact h
      · right; exact List.mem_cons_of_mem _ h
    · simp only [alistInsert, if_neg hk] at h
      rcases List.mem_cons.mp h with h | h
      · right; exact h ▸ List.mem_cons_self e' rest
      · rcases ih k v e h with h' | h'
        · left; exact h'
        · right; exact List.mem_cons_of_mem _ h'

/-- The key list after inserting a present key is unchanged. -/
theorem alistInsert_keys_of_mem {α : Type} [DecidableEq α] {β : Type} :
    ∀ (l : List (α × β)) (k : α) (v : β), k ∈ l.map Prod.fst →
      (alistInsert l k v).map Prod.fst = l.map Prod.fst := by
  intro l
  induction l with
  | nil => intro k v h; simp at h
  | cons e rest ih =>
    intro k v h
    by_cases hk : e.1 = k
    · simp [alistInsert, hk]
    · simp only [List.map_cons, List.mem_cons] at h
      rcases h with h | h
      · exact absurd h.symm hk
      · simp [alistInsert, hk, ih k v h]

/-- The key list after inserting an absent key gains exactly that key. -/
theorem alistInsert_keys_of_not_mem {α : Type} [DecidableEq α] {β : Type} :
    ∀ (l : List (α × β)) (k : α) (v : β), k ∉ l.map Prod.fst →
      (alistInsert l k v).map Prod.fst = l.map Prod.fst ++ [k] := by
  intro l
  induction l with
  | nil => intro k v _; simp [alistInsert]
  | cons e rest ih =>
    intro k v h
    simp only [List.map_cons, List.mem_cons] at h
    push_neg at h
    have hk : e.1 ≠ k := fun h' => h.1 h'.symm
    simp [alistInsert, hk, ih k v h.2]

/-- Key-distinctness is preserved by insertion. -/
theorem alistInsert_keys_nodup {α : Type} [DecidableEq α] {β : Type}
    (l : List (α × β)) (k : α) (v : β) (h : (l.map Prod.fst).Nodup) :
    ((alistInsert l k v).map Prod.fst).Nodup := by
  by_cases hmem : k ∈ l.map Prod.fst
  · rw [alistInsert_keys_of_mem l k v hmem]; exact h
  · rw [alistInsert_keys_of_not_mem l k v hmem]
    simpa using List.Nodup.append h (by simp) (by simpa using hmem)

/-- Value-sum after inserting an absent key. -/
theorem alistInsert_sum_of_not_mem {α : Type} [DecidableEq α] :
    ∀ (l : List (α × ℕ)) (k : α) (v : ℕ), k ∉ l.map Prod.fst →
      ((alistInsert l k v).map Prod.snd).sum = (l.map Prod.snd).sum + v := by
  intro l
  induction l with
  | nil => intro k v _; simp [alistInsert]
  | cons e rest ih =>
    intro k v h
    simp only [List.map_cons, List.mem_cons] at h
    push_neg at h
    have hk : e.1 ≠ k := fun h' => h.1 h'.symm
    simp only [alistInsert, if_neg hk, List.map_cons, List.sum_cons, ih k v h.2]
    omega

/-- Value-sum after overwriting a present key: the old value is swapped for
the new one. -/
theorem alistInsert_sum_of_lookup {α : Type} [DecidableEq α] :
    ∀ (l : List (α × ℕ)) (k : α) (v w : ℕ), alistLookup l k = some w →
      ((alistInsert l k v).map Prod.snd).sum + w = (l.map Prod.snd).sum + v := by
  intro l
  induction l with
  | nil => intro k v w h; simp [alistLookup] at h
  | cons e rest ih =>
    intro k v w h
    by_cases hk : e.1 = k
    · simp only [alistLookup, if_pos hk, Option.some.injEq] at h
      simp only [alistInsert, if_pos hk, List.map_cons, List.sum_cons]
      omega
    · simp only [alistLookup, if_neg hk] at h
      simp only [alistInsert, if_neg hk, List.map_cons, List.sum_cons]
      have h2 := ih k v w h
      omega

/-- Entry-list length after insertion. -/
theorem alistInsert_length {α : Type} [DecidableEq α] {β : Type}
    (l : List (α × β)) (k : α) (v : β) :
    (alistInsert l k v).length =
      if k ∈ l.map Prod.fst then l.length else l.length + 1 := by
  by_cases hmem : k ∈ l.map Prod.fst
  · rw [if_pos hmem]
    have h1 : ((alistInsert l k v).map Prod.fst).length =
        (l.map Prod.fst).length := by rw [alistInsert_keys_of_mem l k v hmem]
    simpa using h1
  · rw [if_neg hmem]
    have h1 : ((alistInsert l k v).map Prod.fst).length =
        (l.map Prod.fst ++ [k]).length := by
      rw [alistInsert_keys_of_not_mem l k v hmem]
    simp only [List.length_map, List.length_append, List.length_cons,
      List.length_nil] at h1
    simpa using h1

/-- `popMin` returns `none` exactly on the empty queue. -/
theorem popMin_eq_none_iff (l : List HeapEntry) :
    popMin l = none ↔ l = [] := by
  cases l with
  | nil => simp [popMin]
  | cons e es =>
    simp only [popMin]
    constructor
    · intro h
      cases hrec : popMin es with
      | none => rw [hrec] at h; simp at h
      | some p => rw [hrec] at h; cases p; simp at h; split at h <;> simp_all
    · intro h; simp at h

/-- Extracting the minimum is a permutation: the queue is the popped entry
plus the rest. -/
theorem popMin_perm : ∀ (l : List HeapEntry) (e : HeapEntry)
    (rest : List HeapEntry), popMin l = some (e, rest) → l.Perm (e :: rest) := by
  intro l
  induction l with
  | nil => intro e rest h; simp [popMin] at h
  | cons a es ih =>
    intro e rest h
    cases hrec : popMin es with
    | none =>
      have hes : es = [] := (popMin_eq_none_iff es).mp hrec
      subst hes
      simp only [popMin, Option.some.injEq, Prod.mk.injEq] at h
      rw [← h.1, ← h.2]
    | some p =>
      obtain ⟨m, rest'⟩ := p
      have hperm : es.Perm (m :: rest') := ih m rest' hrec
      simp only [popMin, hrec] at h
      by_cases hlt : entryLt m a = true
      · rw [if_pos hlt] at h
        simp only [Option.some.injEq, Prod.mk.injEq] at h
        rw [← h.1, ← h.2]
        exact (hperm.cons a).trans (List.Perm.swap m a rest')
      · rw [if_neg hlt] at h
        simp only [Option.some.injEq, Prod.mk.injEq] at h
        rw [← h.1, ← h.2]

/-- Relaxation with an undiscovered neighbour always pushes. -/
theorem relaxNeighbor_of_none (goal current : Cell) (s : SearchState)
    (nb : Cell) (h : alistLookup s.gScore nb = none) :
    relaxNeighbor goal current s nb =
      pushNeighbor goal current s nb ((alistLookup s.gScore current).getD 0 + 1) := by
  simp [relaxNeighbor, h]

/-- Relaxation that improves a known `g_score` pushes. -/
theorem relaxNeighbor_of_lt (goal current : Cell) (s : SearchState)
    (nb : Cell) (g : ℕ) (h : alistLookup s.gScore nb = some g)
    (hlt : (alistLookup s.gScore current).getD 0 + 1 < g) :
    relaxNeighbor goal current s nb =
      pushNeighbor goal current s nb ((alistLookup s.gScore current).getD 0 + 1) := by
  simp [relaxNeighbor, h, hlt]

/-- Relaxation that does not improve leaves the state untouched. -/
theorem relaxNeighbor_of_ge (goal current : Cell) (s : SearchState)
    (nb : Cell) (g : ℕ) (h : alistLookup s.gScore nb = some g)
    (hge : ¬ (alistLookup s.gScore current).getD 0 + 1 < g) :
    relaxNeighbor goal current s nb = s := by
  simp [relaxNeighbor, h, hge]

/-- A relaxation is a no-op or a push. -/
theorem relaxNeighbor_cases (goal current : Cell) (s : SearchState) (nb : Cell) :
    relaxNeighbor goal current s nb = s ∨
    relaxNeighbor goal current s nb =
      pushNeighbor goal current s nb ((alistLookup s.gScore current).getD 0 + 1) := by
  cases h : alistLookup s.gScore nb with
  | none => exact Or.inr (relaxNeighbor_of_none goal current s nb h)
  | some g =>
    by_cases hlt : (alistLookup s.gScore current).getD 0 + 1 < g
    · exact Or.inr (relaxNeighbor_of_lt goal current s nb g h hlt)
    · exact Or.inl (relaxNeighbor_of_ge goal current s nb g h hlt)

/-- The tentative `g` value is bounded by the number of discovered cells. -/
theorem tentative_le_length (rows cols : ℕ) (start current : Cell)
    (s : SearchState) (hInv : SearchInv rows cols start s) :
    (alistLookup s.gScore current).getD 0 + 1 ≤ s.gScore.length := by
  cases h : alistLookup s.gScore current with
  | none =>
    simpa using hInv.2.2.2
  | some g =>
    have hmem := alistLookup_mem s.gScore current g h
    have := hInv.2.1 (current, g) hmem
    simpa using this

/-- The candidate key set has at most `rows * cols + 1` cells. -/
theorem cellsFinset_card_le (rows cols : ℕ) (start : Cell) :
    (cellsFinset rows cols start).card ≤ rows * cols + 1 := by
  unfold cellsFinset
  refine le_trans (Finset.card_insert_le _ _) ?_
  have h1 := Finset.card_image_le
    (s := Finset.range rows ×ˢ Finset.range cols)
    (f := fun p : ℕ × ℕ => ((p.1 : ℤ), (p.2 : ℤ)))
  have h2 : (Finset.range rows ×ˢ Finset.range cols).card = rows * cols := by
    simp [Finset.card_product]
  omega

/-- Membership in the candidate key set. -/
theorem mem_cellsFinset (rows cols : ℕ) (start : Cell) (c : Cell)
    (h : c = start ∨ inGrid rows cols c) :
    c ∈ cellsFinset rows cols start := by
  unfold cellsFinset
  rcases h with h | h
  · subst h; exact Finset.mem_insert_self c _
  · refine Finset.mem_insert_of_mem ?_
    refine Finset.mem_image.mpr ⟨(c.1.toNat, c.2.toNat), ?_, ?_⟩
    · obtain ⟨h1, h2, h3, h4⟩ := h
      refine Finset.mem_product.mpr ⟨Finset.mem_range.mpr ?_, Finset.mem_range.mpr ?_⟩
      · omega
      · omega
    · obtain ⟨h1, h2, h3, h4⟩ := h
      have e1 : ((c.1.toNat : ℤ)) = c.1 := Int.toNat_of_nonneg h1
      have e2 : ((c.2.toNat : ℤ)) = c.2 := Int.toNat_of_nonneg h3
      simp only [e1, e2]

/-- Under the invariant, the discovered-cell dict has at most
`rows * cols + 1` entries. -/
theorem gScore_length_le (rows cols : ℕ) (start : Cell) (s : SearchState)
    (hInv : SearchInv rows cols start s) :
    s.gScore.length ≤ rows * cols + 1 := by
  have hkeys : ∀ c ∈ gKeys s, c ∈ cellsFinset rows cols start := by
    intro c hc
    rcases List.mem_map.mp hc with ⟨e, he, hec⟩
    exact mem_cellsFinset rows cols start c (hec ▸ hInv.2.2.1 e he)
  have h1 : (gKeys s).toFinset ⊆ cellsFinset rows cols start := fun c hc =>
    hkeys c (List.mem_toFinset.mp hc)
  have h2 : (gKeys s).toFinset.card = (gKeys s).length :=
    List.toFinset_card_of_nodup hInv.1
  have h3 := Finset.card_le_card h1
  have h4 : (gKeys s).length = s.gScore.length := by simp [gKeys]
  have h5 := cellsFinset_card_le rows cols start
  omega

/-- One relaxation preserves the search invariant and never increases the
termination measure. -/
theorem relax_step (rows cols : ℕ) (start goal current nb : Cell)
    (s : SearchState) (hInv : SearchInv rows cols start s)
    (hnb : inGrid rows cols nb) :
    SearchInv rows cols start (relaxNeighbor goal current s nb) ∧
    searchMeasure (rows * cols + 1) (relaxNeighbor goal current s nb) ≤
      searchMeasure (rows * cols + 1) s := by
  have htle := tentative_le_length rows cols start current s hInv
  cases hl : alistLookup s.gScore nb with
  | none =>
    rw [relaxNeighbor_of_none goal current s nb hl]
    have hnot : nb ∉ s.gScore.map Prod.fst := (alistLookup_eq_none_iff _ _).mp hl
    have hlen : (alistInsert s.gScore nb
        ((alistLookup s.gScore current).getD 0 + 1)).length =
        s.gScore.length + 1 := by
      rw [alistInsert_length, if_neg hnot]
    have hsum := alistInsert_sum_of_not_mem s.gScore nb
      ((alistLookup s.gScore current).getD 0 + 1) hnot
    have hInv' : SearchInv rows cols start
        (pushNeighbor goal current s nb
          ((alistLookup s.gScore current).getD 0 + 1)) := by
      refine ⟨?_, ?_, ?_, ?_⟩
      · simp only [pushNeighbor, gKeys]
        exact alistInsert_keys_nodup _ _ _ hInv.1
      · intro e he
        simp only [pushNeighbor] at he ⊢
        rw [hlen]
        rcases alistInsert_entry_cases _ _ _ _ he with he' | he'
        · rw [he']
          omega
        · have := hInv.2.1 e he'
          omega
      · intro e he
        simp only [pushNeighbor] at he
        rcases alistInsert_entry_cases _ _ _ _ he with he' | he'
        · rw [he']
          exact Or.inr hnb
        · exact hInv.2.2.1 e he'
      · simp only [pushNeighbor]
        rw [hlen]
        omega
    refine ⟨hInv', ?_⟩
    have hlenle := gScore_length_le rows cols start _ hInv'
    simp only [pushNeighbor] at hlenle
    rw [hlen] at hlenle
    unfold searchMeasure gValuesSum
    simp only [pushNeighbor, List.length_cons]
    rw [hlen, hsum]
    have h1 : rows * cols + 1 - s.gScore.length =
        (rows * cols + 1 - (s.gScore.length + 1)) + 1 := by omega
    rw [h1]
    have h2 : 2 * (rows * cols + 1) *
        ((rows * cols + 1 - (s.gScore.length + 1)) + 1) =
        2 * (rows * cols + 1) * (rows * cols + 1 - (s.gScore.length + 1)) +
        2 * (rows * cols + 1) := by ring
    rw [h2]
    linarith
  | some g =>
    by_cases hlt : (alistLookup s.gScore current).getD 0 + 1 < g
    · rw [relaxNeighbor_of_lt goal current s nb g hl hlt]
      have hmemg := alistLookup_mem s.gScore nb g hl
      have hmem : nb ∈ s.gScore.map Prod.fst := by
        exact List.mem_map_of_mem Prod.fst hmemg
      have hgbound : g + 1 ≤ s.gScore.length := hInv.2.1 (nb, g) hmemg
      have hlen : (alistInsert s.gScore nb
          ((alistLookup s.gScore current).getD 0 + 1)).length =
          s.gScore.length := by
        rw [alistInsert_length, if_pos hmem]
      have hsum := alistInsert_sum_of_lookup s.gScore nb
        ((alistLookup s.gScore current).getD 0 + 1) g hl
      have hInv' : SearchInv rows cols start
          (pushNeighbor goal current s nb
            ((alistLookup s.gScore current).getD 0 + 1)) := by
        refine ⟨?_, ?_, ?_, ?_⟩
        · simp only [pushNeighbor, gKeys]
          exact alistInsert_keys_nodup _ _ _ hInv.1
        · intro e he
          simp only [pushNeighbor] at he ⊢
          rw [hlen]
          rcases alistInsert_entry_cases _ _ _ _ he with he' | he'
          · rw [he']
            omega
          · exact hInv.2.1 e he'
        · intro e he
          simp only [pushNeighbor] at he
          rcases alistInsert_entry_cases _ _ _ _ he with he' | he'
          · rw [he']
            exact Or.inr hnb
          · exact hInv.2.2.1 e he'
        · simp only [pushNeighbor]
          rw [hlen]
          exact hInv.2.2.2
      refine ⟨hInv', ?_⟩
      unfold searchMeasure gValuesSum
      simp only [pushNeighbor, List.length_cons]
      rw [hlen]
      linarith
    · rw [relaxNeighbor_of_ge goal current s nb g hl hlt]
      exact ⟨hInv, le_refl _⟩

/-- All neighbours returned by `get_neighbors` are in-bounds. -/
theorem get_neighbors_inGrid (rows cols : ℕ) (c nb : Cell)
    (h : nb ∈ get_neighbors rows cols c) : inGrid rows cols nb := by
  unfold get_neighbors at h
  have h2 := List.of_mem_filter h
  simpa using of_decide_eq_true h2

/-- Folding relaxations over in-bounds neighbours preserves the invariant and
never increases the measure. -/
theorem foldl_relax_step (rows cols : ℕ) (start goal current : Cell) :
    ∀ (ns : List Cell), (∀ nb ∈ ns, inGrid rows cols nb) →
    ∀ s : SearchState, SearchInv rows cols start s →
    SearchInv rows cols start (ns.foldl (relaxNeighbor goal current) s) ∧
    searchMeasure (rows * cols + 1) (ns.foldl (relaxNeighbor goal current) s) ≤
      searchMeasure (rows * cols + 1) s := by
  intro ns
  induction ns with
  | nil => intro _ s hInv; exact ⟨hInv, le_refl _⟩
  | cons nb rest ih =>
    intro hns s hInv
    have hstep := relax_step rows cols start goal current nb s hInv
      (hns nb (List.mem_cons_self nb rest))
    have hrest := ih (fun nb' h => hns nb' (List.mem_cons_of_mem _ h))
      (relaxNeighbor goal current s nb) hstep.1
    exact ⟨hrest.1, le_trans hrest.2 hstep.2⟩

/-- Replacing the open queue leaves the measure's dict parts unchanged. -/
theorem searchMeasure_openSet (n : ℕ) (s : SearchState) (rest : List HeapEntry) :
    searchMeasure n { s with openSet := rest } =
      2 * n * (n - s.gScore.length) + 2 * gValuesSum s + rest.length := rfl

/-- The search invariant ignores the open queue. -/
theorem SearchInv_openSet (rows cols : ℕ) (start : Cell) (s : SearchState)
    (rest : List HeapEntry) (h : SearchInv rows cols start s) :
    SearchInv rows cols start { s with openSet := rest } := h

/-- With fuel exceeding the measure, the search loop cannot run out of
fuel. -/
theorem astarLoop_ne_none (rows cols : ℕ) (start goal : Cell) :
    ∀ (fuel : ℕ) (s : SearchState), SearchInv rows cols start s →
    searchMeasure (rows * cols + 1) s < fuel →
    astarLoop rows cols start goal fuel s ≠ none := by
  intro fuel
  induction fuel with
  | zero => intro s _ h; exact absurd h (Nat.not_lt_zero _)
  | succ fuel ih =>
    intro s hInv hmeas
    simp only [astarLoop]
    cases hpop : popMin s.openSet with
    | none => simp
    | some p =>
      obtain ⟨e, rest⟩ := p
      simp only []
      by_cases hgoal : e.2.2 = goal
      · rw [if_pos hgoal]
        simp
      · rw [if_neg hgoal]
        have hperm := popMin_perm s.openSet e rest hpop
        have hlen : s.openSet.length = rest.length + 1 := by
          have h1 := hperm.length_eq
          simpa using h1
        have hInv1 : SearchInv rows cols start { s with openSet := rest } :=
          SearchInv_openSet rows cols start s rest hInv
        have hmeas1 : searchMeasure (rows * cols + 1) { s with openSet := rest } + 1 =
            searchMeasure (rows * cols + 1) s := by
          rw [searchMeasure_openSet]
          unfold searchMeasure
          linarith
        have hfold := foldl_relax_step rows cols start goal e.2.2
          (get_neighbors rows cols e.2.2)
          (fun nb h => get_neighbors_inGrid rows cols e.2.2 nb h)
          { s with openSet := rest } hInv1
        exact ih _ hfold.1 (by omega)

/-- The initial search state satisfies the invariant. -/
theorem astarInit_inv (rows cols : ℕ) (start : Cell) :
    SearchInv rows cols start (astarInit start) := by
  refine ⟨?_, ?_, ?_, ?_⟩
  · simp [astarInit, gKeys]
  · intro e he
    simp only [astarInit, List.mem_singleton] at he
    rw [he]
    simp [astarInit]
  · intro e he
    simp only [astarInit, List.mem_singleton] at he
    rw [he]
    exact Or.inl rfl
  · simp [astarInit]

/-- The fuel budget `astarFuel` strictly dominates the initial measure. -/
theorem astarInit_measure_lt (rows cols : ℕ) (start : Cell) :
    searchMeasure (rows * cols + 1) (astarInit start) < astarFuel rows cols := by
  have h0 : searchMeasure (rows * cols + 1) (astarInit start) =
      2 * (rows * cols + 1) * ((rows * cols + 1) - 1) + 1 := rfl
  rw [h0]
  unfold astarFuel
  have h1 : 2 * (rows * cols + 1) * ((rows * cols + 1) - 1) ≤
      2 * (rows * cols + 1) * (rows * cols + 1) :=
    Nat.mul_le_mul_left _ (Nat.sub_le _ _)
  omega

/-- The search loop, run with the proven fuel budget from the initial state,
terminates by exhausting the queue or reaching the goal — never by running
out of fuel. -/
theorem astar_terminates (rows cols : ℕ) (start goal : Cell) :
    astarLoop rows cols start goal (astarFuel rows cols) (astarInit start) ≠
      none :=
  astarLoop_ne_none rows cols start goal (astarFuel rows cols) (astarInit start)
    (astarInit_inv rows cols start) (astarInit_measure_lt rows cols start)

/-- Discovered cells are never forgotten by a relaxation. -/
theorem gKeys_subset_relax (goal current : Cell) (s : SearchState) (nb c : Cell)
    (hc : c ∈ gKeys s) : c ∈ gKeys (relaxNeighbor goal current s nb) := by
  rcases relaxNeighbor_cases goal current s nb with h | h
  · rwa [h]
  · rw [h]
    simp only [pushNeighbor, gKeys] at hc ⊢
    by_cases hmem : nb ∈ s.gScore.map Prod.fst
    · rwa [alistInsert_keys_of_mem _ _ _ hmem]
    · rw [alistInsert_keys_of_not_mem _ _ _ hmem]
      exact List.mem_append_left _ hc

/-- Queued cells are never dropped by a relaxation. -/
theorem openCells_subset_relax (goal current : Cell) (s : SearchState)
    (nb a : Cell) (ha : a ∈ openCells s) :
    a ∈ openCells (relaxNeighbor goal current s nb) := by
  rcases relaxNeighbor_cases goal current s nb with h | h
  · rwa [h]
  · rw [h]
    simp only [pushNeighbor, openCells, List.map_cons] at ha ⊢
    exact List.mem_cons_of_mem _ ha

/-- After relaxing a neighbour, that neighbour is discovered. -/
theorem relax_nb_mem_gKeys (goal current : Cell) (s : SearchState) (nb : Cell) :
    nb ∈ gKeys (relaxNeighbor goal current s nb) := by
  cases hl : alistLookup s.gScore nb with
  | none =>
    rw [relaxNeighbor_of_none goal current s nb hl]
    simp only [pushNeighbor, gKeys]
    rw [alistInsert_keys_of_not_mem _ _ _ ((alistLookup_eq_none_iff _ _).mp hl)]
    simp
  | some g =>
    have hmem : nb ∈ s.gScore.map Prod.fst :=
      List.mem_map_of_mem Prod.fst (alistLookup_mem _ _ _ hl)
    by_cases hlt : (alistLookup s.gScore current).getD 0 + 1 < g
    · rw [relaxNeighbor_of_lt goal current s nb g hl hlt]
      simp only [pushNeighbor, gKeys]
      rwa [alistInsert_keys_of_mem _ _ _ hmem]
    · rw [relaxNeighbor_of_ge goal current s nb g hl hlt]
      exact hmem

/-- A cell discovered after a relaxation was already discovered or now sits
on the open queue. -/
theorem gKeys_cases_relax (goal current : Cell) (s : SearchState) (nb c : Cell)
    (hc : c ∈ gKeys (relaxNeighbor goal current s nb)) :
    c ∈ gKeys s ∨ c ∈ openCells (relaxNeighbor goal current s nb) := by
  rcases hcase : relaxNeighbor_cases goal current s nb with h | h
  · rw [h] at hc; exact Or.inl hc
  · rw [h] at hc
    simp only [pushNeighbor, gKeys] at hc
    by_cases hmem : nb ∈ s.gScore.map Prod.fst
    · rw [alistInsert_keys_of_mem _ _ _ hmem] at hc
      exact Or.inl hc
    · rw [alistInsert_keys_of_not_mem _ _ _ hmem] at hc
      rcases List.mem_append.mp hc with hc | hc
      · exact Or.inl hc
      · right
        rw [h]
        simp only [pushNeighbor, openCells, List.map_cons]
        simp only [List.mem_singleton] at hc
        rw [hc]
        exact List.mem_cons_self _ _

/-- A cell queued after a relaxation is the relaxed neighbour or was queued
before. -/
theorem openCells_cases_relax (goal current : Cell) (s : SearchState)
    (nb a : Cell) (ha : a ∈ openCells (relaxNeighbor goal current s nb)) :
    a = nb ∨ a ∈ openCells s := by
  rcases relaxNeighbor_cases goal current s nb with h | h
  · rw [h] at ha; exact Or.inr ha
  · rw [h] at ha
    simp only [pushNeighbor, openCells, List.map_cons] at ha
    rcases List.mem_cons.mp ha with ha | ha
    · exact Or.inl ha
    · exact Or.inr ha

/-- `gKeys` monotonicity along the neighbour fold. -/
theorem gKeys_subset_foldl (goal current : Cell) :
    ∀ (ns : List Cell) (s : SearchState) (c : Cell), c ∈ gKeys s →
      c ∈ gKeys (ns.foldl (relaxNeighbor goal current) s) := by
  intro ns
  induction ns with
  | nil => intro s c hc; exact hc
  | cons nb rest ih =>
    intro s c hc
    exact ih _ c (gKeys_subset_relax goal current s nb c hc)

/-- `openCells` monotonicity along the neighbour fold. -/
theorem openCells_subset_foldl (goal current : Cell) :
    ∀ (ns : List Cell) (s : SearchState) (a : Cell), a ∈ openCells s →
      a ∈ openCells (ns.foldl (relaxNeighbor goal current) s) := by
  intro ns
  induction ns with
  | nil => intro s a ha; exact ha
  | cons nb rest ih =>
    intro s a ha
    exact ih _ a (openCells_subset_relax goal current s nb a ha)

/-- After the neighbour fold, every processed neighbour is discovered. -/
theorem foldl_mem_gKeys (goal current : Cell) :
    ∀ (ns : List Cell) (s : SearchState) (nb : Cell), nb ∈ ns →
      nb ∈ gKeys (ns.foldl (relaxNeighbor goal current) s) := by
  intro ns
  induction ns with
  | nil => intro s nb h; simp at h
  | cons nb' rest ih =>
    intro s nb h
    rcases List.mem_cons.mp h with h | h
    · subst h
      exact gKeys_subset_foldl goal current rest _ nb
        (relax_nb_mem_gKeys goal current s nb)
    · exact ih _ nb h

/-- A cell discovered after the fold was discovered before it or is now
queued. -/
theorem gKeys_cases_foldl (goal current : Cell) :
    ∀ (ns : List Cell) (s : SearchState) (c : Cell),
      c ∈ gKeys (ns.foldl (relaxNeighbor goal current) s) →
      c ∈ gKeys s ∨ c ∈ openCells (ns.foldl (relaxNeighbor goal current) s) := by
  intro ns
  induction ns with
  | nil => intro s c hc; exact Or.inl hc
  | cons nb rest ih =>
    intro s c hc
    rcases ih _ c hc with hc' | hc'
    · rcases gKeys_cases_relax goal current s nb c hc' with hc'' | hc''
      · exact Or.inl hc''
      · exact Or.inr (openCells_subset_foldl goal current rest _ c hc'')
    · exact Or.inr hc'

/-- A cell queued after the fold is a processed neighbour or was queued
before. -/
theorem openCells_cases_foldl (goal current : Cell) :
    ∀ (ns : List Cell) (s : SearchState) (a : Cell),
      a ∈ openCells (ns.foldl (relaxNeighbor goal current) s) →
      a ∈ ns ∨ a ∈ openCells s := by
  intro ns
  induction ns with
  | nil => intro s a ha; exact Or.inr ha
  | cons nb rest ih =>
    intro s a ha
    rcases ih _ a ha with ha' | ha'
    · exact Or.inl (List.mem_cons_of_mem _ ha')
    · rcases openCells_cases_relax goal current s nb a ha' with ha'' | ha''
      · exact Or.inl (ha'' ▸ List.mem_cons_self _ _)
      · exact Or.inr ha''

/-- A reconstructed path always contains the start cell. -/
theorem reconstructPath_ne_nil (cameFrom : List (Cell × Cell)) (start current : Cell) :
    reconstructPath cameFrom start current ≠ [] := by
  unfold reconstructPath
  simp

/-- If the goal is never on the open queue (e.g. it lies outside the grid
while every push is in-bounds), the loop can only exhaust its fuel or its
queue. -/
theorem astarLoop_goal_not_open (rows cols : ℕ) (start goal : Cell)
    (hg : ¬ inGrid rows cols goal) :
    ∀ (fuel : ℕ) (s : SearchState), goal ∉ openCells s →
    astarLoop rows cols start goal fuel s = none ∨
    astarLoop rows cols start goal fuel s = some [] := by
  intro fuel
  induction fuel with
  | zero => intro s _; exact Or.inl rfl
  | succ fuel ih =>
    intro s hopen
    simp only [astarLoop]
    cases hpop : popMin s.openSet with
    | none => exact Or.inr rfl
    | some p =>
      obtain ⟨e, rest⟩ := p
      simp only []
      have hperm := popMin_perm s.openSet e rest hpop
      have hcur : e.2.2 ∈ openCells s := by
        have he : e ∈ s.openSet := (hperm.mem_iff).mpr (List.mem_cons_self e rest)
        exact List.mem_map_of_mem (fun x => x.2.2) he
      have hne : e.2.2 ≠ goal := fun h => hopen (h ▸ hcur)
      rw [if_neg hne]
      refine ih _ ?_
      intro hgoal'
      rcases openCells_cases_foldl goal e.2.2 (get_neighbors rows cols e.2.2)
        { s with openSet := rest } goal hgoal' with h | h
      · exact hg (get_neighbors_inGrid rows cols e.2.2 goal h)
      · have hsub : goal ∈ openCells s := by
          have hmem : goal ∈ rest.map (fun x => x.2.2) := h
          have h4 : goal ∈ s.openSet.map (fun x => x.2.2) ↔
              goal ∈ (e :: rest).map (fun x => x.2.2) :=
            (hperm.map (fun x => x.2.2)).mem_iff
          exact h4.mpr (List.mem_cons_of_mem _ hmem)
        exact hopen hsub

/-- `_astar` with an out-of-bounds goal distinct from the start returns the
empty path. -/
theorem astar_oob_goal_empty (rows cols : ℕ) (start goal : Cell)
    (hg : ¬ inGrid rows cols goal) (hne : start ≠ goal) :
    astar rows cols start goal = [] := by
  have h0 : goal ∉ openCells (astarInit start) := by
    simp only [astarInit, openCells, List.map_cons, List.map_nil]
    intro h
    rcases List.mem_singleton.mp h with h
    exact hne h.symm
  rcases astarLoop_goal_not_open rows cols start goal hg
    (astarFuel rows cols) (astarInit start) h0 with h | h
  · unfold astar; rw [h]; rfl
  · unfold astar; rw [h]; rfl

/-- In a neighbour-closed discovered set, a 4-connected walk cannot leave the
set. -/
theorem chain_closure (rows cols : ℕ) (K : List Cell)
    (hK : ∀ c ∈ K, ∀ nb ∈ get_neighbors rows cols c, nb ∈ K) :
    ∀ (path : List Cell) (c : Cell), c ∈ K → AdjChain rows cols c path →
      ∀ d ∈ c :: path, d ∈ K := by
  intro path
  induction path with
  | nil =>
    intro c hc _ d hd
    rcases List.mem_singleton.mp hd with hd
    rwa [hd]
  | cons b path ih =>
    intro c hc hchain d hd
    obtain ⟨hadj, hrest⟩ := List.chain_cons.mp hchain
    have hb : b ∈ K := hK c hc b hadj
    rcases List.mem_cons.mp hd with hd | hd
    · rwa [hd]
    · exact ih b hb hrest d hd

/-- The initial state satisfies the frontier invariant. -/
theorem astarInit_frontier (rows cols : ℕ) (start : Cell) :
    FrontierInv rows cols (astarInit start) := by
  intro c hc
  right
  simp only [astarInit, gKeys, List.map_cons, List.map_nil] at hc
  simp only [astarInit, openCells, List.map_cons, List.map_nil]
  exact hc

/-- The initial state satisfies the goal invariant. -/
theorem astarInit_goalInv (goal start : Cell) : GoalInv goal (astarInit start) := by
  intro h
  simp only [astarInit, gKeys, List.map_cons, List.map_nil] at h
  simpa [astarInit, openCells] using h

/-- One continue-iteration of the loop preserves the frontier invariant. -/
theorem frontier_step (rows cols : ℕ) (goal : Cell) (s : SearchState)
    (e : HeapEntry) (rest : List HeapEntry)
    (hpop : popMin s.openSet = some (e, rest))
    (hF : FrontierInv rows cols s) :
    FrontierInv rows cols
      ((get_neighbors rows cols e.2.2).foldl (relaxNeighbor goal e.2.2)
        { s with openSet := rest }) := by
  have hperm := popMin_perm s.openSet e rest hpop
  intro c hc
  rcases gKeys_cases_foldl goal e.2.2 _ _ c hc with hold | hopen
  · have hold' : c ∈ gKeys s := hold
    rcases hF c hold' with hclosed | hopen0
    · left
      intro nb hnb
      exact gKeys_subset_foldl goal e.2.2 _ _ nb (hclosed nb hnb)
    · by_cases hcur : c = e.2.2
      · left
        intro nb hnb
        exact foldl_mem_gKeys goal e.2.2 _ _ nb (hcur ▸ hnb)
      · right
        have hc1 : c ∈ openCells { s with openSet := rest } := by
          have h1 : c ∈ s.openSet.map (fun x => x.2.2) := hopen0
          have h2 := (hperm.map (fun x => x.2.2)).mem_iff.mp h1
          rcases List.mem_cons.mp h2 with h3 | h3
          · exact absurd h3 hcur
          · exact h3
        exact openCells_subset_foldl goal e.2.2 _ _ c hc1
  · right; exact hopen

/-- One continue-iteration (popping a non-goal cell) preserves the goal
invariant. -/
theorem goalInv_step (rows cols : ℕ) (goal : Cell) (s : SearchState)
    (e : HeapEntry) (rest : List HeapEntry)
    (hpop : popMin s.openSet = some (e, rest)) (hne : e.2.2 ≠ goal)
    (hG : GoalInv goal s) :
    GoalInv goal
      ((get_neighbors rows cols e.2.2).foldl (relaxNeighbor goal e.2.2)
        { s with openSet := rest }) := by
  have hperm := popMin_perm s.openSet e rest hpop
  intro hgoal
  rcases gKeys_cases_foldl goal e.2.2 _ _ goal hgoal with hold | hopen
  · have hopen0 : goal ∈ openCells s := hG hold
    have hc1 : goal ∈ openCells { s with openSet := rest } := by
      have h1 : goal ∈ s.openSet.map (fun x => x.2.2) := hopen0
      have h2 := (hperm.map (fun x => x.2.2)).mem_iff.mp h1
      rcases List.mem_cons.mp h2 with h3 | h3
      · exact absurd h3.symm hne
      · exact h3
    exact openCells_subset_foldl goal e.2.2 _ _ goal hc1
  · exact hopen

/-- Under the frontier and goal invariants, the loop never reports
"no path" while a discovered cell is connected to the goal. -/
theorem astarLoop_ne_some_nil (rows cols : ℕ) (start goal : Cell) :
    ∀ (fuel : ℕ) (s : SearchState), FrontierInv rows cols s → GoalInv goal s →
    (∃ c ∈ gKeys s, ReachesGoal rows cols c goal) →
    astarLoop rows cols start goal fuel s ≠ some [] := by
  intro fuel
  induction fuel with
  | zero => intro s _ _ _; simp [astarLoop]
  | succ fuel ih =>
    intro s hF hG hreach
    simp only [astarLoop]
    cases hpop : popMin s.openSet with
    | none =>
      have hempty : s.openSet = [] := (popMin_eq_none_iff _).mp hpop
      obtain ⟨c, hc, path, hchain, hlast⟩ := hreach
      have hclosed : ∀ c' ∈ gKeys s, ∀ nb ∈ get_neighbors rows cols c',
          nb ∈ gKeys s := by
        intro c' hc' nb hnb
        rcases hF c' hc' with h | h
        · exact h nb hnb
        · rw [openCells, hempty] at h
          simp at h
      have hgoalmem : goal ∈ c :: path := by
        obtain ⟨hne, heq⟩ := List.mem_getLast?_eq_getLast
          (l := c :: path) (x := goal) hlast
        rw [heq]
        exact List.getLast_mem hne
      have hmem : goal ∈ gKeys s :=
        chain_closure rows cols (gKeys s) hclosed path c hc hchain goal hgoalmem
      have hcontra := hG hmem
      rw [openCells, hempty] at hcontra
      simp at hcontra
    | some p =>
      obtain ⟨e, rest⟩ := p
      simp only []
      by_cases hgoal : e.2.2 = goal
      · rw [if_pos hgoal]
        intro h
        exact reconstructPath_ne_nil s.cameFrom start e.2.2 (Option.some.inj h)
      · rw [if_neg hgoal]
        refine ih _ (frontier_step rows cols goal s e rest hpop hF)
          (goalInv_step rows cols goal s e rest hpop hgoal hG) ?_
        obtain ⟨c, hc, hcreach⟩ := hreach
        exact ⟨c, gKeys_subset_foldl goal e.2.2 _ _ c hc, hcreach⟩


/-- `get_neighbors` admits exactly the in-bounds 4-connected cells: no
occupancy, obstacle or visited status is consulted. -/
theorem mem_get_neighbors_iff (rows cols : ℕ) (c nb : Cell) :
    nb ∈ get_neighbors rows cols c ↔
      ((nb = (c.1 - 1, c.2) ∨ nb = (c.1 + 1, c.2) ∨
        nb = (c.1, c.2 - 1) ∨ nb = (c.1, c.2 + 1)) ∧ inGrid rows cols nb) := by
  unfold get_neighbors
  simp only [List.mem_filter, List.mem_map, List.mem_cons,
    List.not_mem_nil, or_false, decide_eq_true_eq]
  constructor
  · rintro ⟨⟨d, hd, hnb⟩, hin⟩
    refine ⟨?_, hin⟩
    rcases hd with hd | hd | hd | hd
    · subst hd; rw [← hnb]; left
      show (c.1 + -1, c.2 + 0) = (c.1 - 1, c.2)
      refine Prod.ext ?_ ?_ <;> omega
    · subst hd; rw [← hnb]; right; left
      show (c.1 + 1, c.2 + 0) = (c.1 + 1, c.2)
      refine Prod.ext ?_ ?_ <;> omega
    · subst hd; rw [← hnb]; right; right; left
      show (c.1 + 0, c.2 + -1) = (c.1, c.2 - 1)
      refine Prod.ext ?_ ?_ <;> omega
    · subst hd; rw [← hnb]; right; right; right
      show (c.1 + 0, c.2 + 1) = (c.1, c.2 + 1)
      refine Prod.ext ?_ ?_ <;> omega
  · rintro ⟨hd, hin⟩
    refine ⟨?_, hin⟩
    rcases hd with hd | hd | hd | hd
    · refine ⟨(-1, 0), Or.inl rfl, ?_⟩
      rw [hd]
      show (c.1 + -1, c.2 + 0) = (c.1 - 1, c.2)
      refine Prod.ext ?_ ?_ <;> omega
    · refine ⟨(1, 0), Or.inr (Or.inl rfl), ?_⟩
      rw [hd]
      show (c.1 + 1, c.2 + 0) = (c.1 + 1, c.2)
      refine Prod.ext ?_ ?_ <;> omega
    · refine ⟨(0, -1), Or.inr (Or.inr (Or.inl rfl)), ?_⟩
      rw [hd]
      show (c.1 + 0, c.2 + -1) = (c.1, c.2 - 1)
      refine Prod.ext ?_ ?_ <;> omega
    · refine ⟨(0, 1), Or.inr (Or.inr (Or.inr rfl)), ?_⟩
      rw [hd]
      show (c.1 + 0, c.2 + 1) = (c.1, c.2 + 1)
      refine Prod.ext ?_ ?_ <;> omega

/-- Any two in-bounds cells are joined by a 4-connected in-bounds walk. -/
theorem grid_connected (rows cols : ℕ) :
    ∀ (n : ℕ) (a b : Cell), (a.1 - b.1).natAbs + (a.2 - b.2).natAbs = n →
    inGrid rows cols a → inGrid rows cols b → ReachesGoal rows cols a b := by
  intro n
  induction n using Nat.strong_induction_on with
  | _ n ih =>
    intro a b hd ha hb
    by_cases hab : a = b
    · subst hab
      exact ⟨[], List.Chain.nil, by simp⟩
    · obtain ⟨ha1, ha2, ha3, ha4⟩ := id ha
      obtain ⟨hb1, hb2, hb3, hb4⟩ := id hb
      rcases lt_trichotomy a.1 b.1 with h1 | h1 | h1
      · have ha' : inGrid rows cols (a.1 + 1, a.2) := ⟨by omega, by omega, ha3, ha4⟩
        have hadj : (a.1 + 1, a.2) ∈ get_neighbors rows cols a :=
          (mem_get_neighbors_iff rows cols a _).mpr ⟨Or.inr (Or.inl rfl), ha'⟩
        have hdist : ((a.1 + 1, a.2).1 - b.1).natAbs +
            ((a.1 + 1, a.2).2 - b.2).natAbs < n := by
          show (a.1 + 1 - b.1).natAbs + (a.2 - b.2).natAbs < n
          omega
        obtain ⟨path, hchain, hlast⟩ := ih _ hdist (a.1 + 1, a.2) b rfl ha' hb
        exact ⟨(a.1 + 1, a.2) :: path, List.Chain.cons hadj hchain,
          by rw [List.getLast?_cons_cons]; exact hlast⟩
      · rcases lt_trichotomy a.2 b.2 with h2 | h2 | h2
        · have ha' : inGrid rows cols (a.1, a.2 + 1) := ⟨ha1, ha2, by omega, by omega⟩
          have hadj : (a.1, a.2 + 1) ∈ get_neighbors rows cols a :=
            (mem_get_neighbors_iff rows cols a _).mpr
              ⟨Or.inr (Or.inr (Or.inr rfl)), ha'⟩
          have hdist : ((a.1, a.2 + 1).1 - b.1).natAbs +
              ((a.1, a.2 + 1).2 - b.2).natAbs < n := by
            show (a.1 - b.1).natAbs + (a.2 + 1 - b.2).natAbs < n
            omega
          obtain ⟨path, hchain, hlast⟩ := ih _ hdist (a.1, a.2 + 1) b rfl ha' hb
          exact ⟨(a.1, a.2 + 1) :: path, List.Chain.cons hadj hchain,
            by rw [List.getLast?_cons_cons]; exact hlast⟩
        · exact absurd (Prod.ext h1 h2) hab
        · have ha' : inGrid rows cols (a.1, a.2 - 1) := ⟨ha1, ha2, by omega, by omega⟩
          have hadj : (a.1, a.2 - 1) ∈ get_neighbors rows cols a :=
            (mem_get_neighbors_iff rows cols a _).mpr
              ⟨Or.inr (Or.inr (Or.inl rfl)), ha'⟩
          have hdist : ((a.1, a.2 - 1).1 - b.1).natAbs +
              ((a.1, a.2 - 1).2 - b.2).natAbs < n := by
            show (a.1 - b.1).natAbs + (a.2 - 1 - b.2).natAbs < n
            omega
          obtain ⟨path, hchain, hlast⟩ := ih _ hdist (a.1, a.2 - 1) b rfl ha' hb
          exact ⟨(a.1, a.2 - 1) :: path, List.Chain.cons hadj hchain,
            by rw [List.getLast?_cons_cons]; exact hlast⟩
      · have ha' : inGrid rows cols (a.1 - 1, a.2) := ⟨by omega, by omega, ha3, ha4⟩
        have hadj : (a.1 - 1, a.2) ∈ get_neighbors rows cols a :=
          (mem_get_neighbors_iff rows cols a _).mpr ⟨Or.inl rfl, ha'⟩
        have hdist : ((a.1 - 1, a.2).1 - b.1).natAbs +
            ((a.1 - 1, a.2).2 - b.2).natAbs < n := by
          show (a.1 - 1 - b.1).natAbs + (a.2 - b.2).natAbs < n
          omega
        obtain ⟨path, hchain, hlast⟩ := ih _ hdist (a.1 - 1, a.2) b rfl ha' hb
        exact ⟨(a.1 - 1, a.2) :: path, List.Chain.cons hadj hchain,
          by rw [List.getLast?_cons_cons]; exact hlast⟩

/-- With start and goal both inside the grid, `_astar` returns a non-empty
path. -/
theorem astar_inbounds_ne_nil (rows cols : ℕ) (start goal : Cell)
    (hs : inGrid rows cols start) (hg : inGrid rows cols goal) :
    astar rows cols start goal ≠ [] := by
  have hreach : ReachesGoal rows cols start goal :=
    grid_connected rows cols _ start goal rfl hs hg
  have hterm := astar_terminates rows cols start goal
  have hnotnil := astarLoop_ne_some_nil rows cols start goal
    (astarFuel rows cols) (astarInit start)
    (astarInit_frontier rows cols start) (astarInit_goalInv goal start)
    ⟨start, by simp [astarInit, gKeys], hreach⟩
  unfold astar
  cases hres : astarLoop rows cols start goal (astarFuel rows cols)
      (astarInit start) with
  | none => exact absurd hres hterm
  | some p =>
    intro h
    simp only [Option.getD_some] at h
    rw [h] at hres
    exact hnotnil hres

/-! ### C7 — A* on the 5×5 grid; out-of-bounds goal -/

/-- **C7 counterexample.**  The claim "when the goal cell lies outside the
grid bounds, `_astar` returns the empty list" fails when the start equals the
out-of-bounds goal: the first pop is the goal and the one-cell path is
returned. -/
theorem astar_oob_goal_nonempty :
    astar 5 5 (9, 9) (9, 9) = [((9 : ℤ), (9 : ℤ))] ∧
    ¬ inGrid 5 5 ((9 : ℤ), (9 : ℤ)) := by decide

/-- **C7 (amended).**  On an obstacle-free 5×5 grid, `_astar` from `(0,0)` to
`(4,4)` returns a path of exactly 9 cells, from the start cell to the goal
cell inclusive; and when the goal lies outside the grid bounds *and differs
from the start cell*, `_astar` returns the empty list. -/
theorem astar_five_grid_and_oob_goal (rows cols : ℕ) (start goal : Cell)
    (hg : ¬ inGrid rows cols goal) (hne : start ≠ goal) :
    ((astar 5 5 (0, 0) (4, 4)).length = 9 ∧
      (astar 5 5 (0, 0) (4, 4)).head? = some (0, 0) ∧
      (astar 5 5 (0, 0) (4, 4)).getLast? = some (4, 4)) ∧
    astar rows cols start goal = [] :=
  ⟨by decide, astar_oob_goal_empty rows cols start goal hg hne⟩

/-- Witness for `astar_five_grid_and_oob_goal` at goal `(7,7)` outside the
5×5 grid. -/
theorem astar_five_grid_witness : astar 5 5 (0, 0) (7, 7) = [] :=
  (astar_five_grid_and_oob_goal 5 5 (0, 0) (7, 7) (by decide) (by decide)).2

/-! ### C10 — A* never consults occupancy; completeness on the grid -/

/-- **C10 counterexample.**  The claim "an empty result can only occur when
the goal is outside the grid" fails: with the start `(9,9)` outside the 5×5
grid and the in-bounds goal `(0,0)`, the start has no in-bounds neighbours,
the queue empties, and the result is empty although the goal is inside the
grid. -/
theorem astar_empty_with_inbounds_goal :
    astar 5 5 (9, 9) (0, 0) = [] ∧ inGrid 5 5 ((0 : ℤ), (0 : ℤ)) := by decide

/-- **C10 (amended).**  The A* neighbour function admits every in-bounds
4-connected cell and consults no occupancy or visited status; consequently,
for every start and goal cell that both lie within the grid bounds, `_astar`
returns a non-empty path — equivalently, an empty (unreachable) result can
only occur when the start or the goal lies outside the grid. -/
theorem astar_never_consults_occupancy (rows cols : ℕ) (start goal c nb : Cell)
    (hs : inGrid rows cols start) (hg : inGrid rows cols goal) :
    (nb ∈ get_neighbors rows cols c ↔
      ((nb = (c.1 - 1, c.2) ∨ nb = (c.1 + 1, c.2) ∨
        nb = (c.1, c.2 - 1) ∨ nb = (c.1, c.2 + 1)) ∧ inGrid rows cols nb)) ∧
    astar rows cols start goal ≠ [] :=
  ⟨mem_get_neighbors_iff rows cols c nb,
    astar_inbounds_ne_nil rows cols start goal hs hg⟩

/-- Witness for `astar_never_consults_occupancy` on the 5×5 grid. -/
theorem astar_never_consults_occupancy_witness :
    astar 5 5 (0, 0) (4, 4) ≠ [] :=
  (astar_never_consults_occupancy 5 5 (0, 0) (4, 4) (0, 0) (1, 0)
    (by decide) (by decide)).2
